import Mathlib

/-!
# Black-Scholes engine and implied-volatility solver

A shallow embedding of `NormalDistribution.hpp`, `BlackScholes.h`, `ImpliedVol.hpp` and
`options.h`.

The C++ code computes with IEEE-754 doubles.  The embedding keeps the *special values* of the
format (the two infinities and NaN) and the rules by which they arise and propagate, and reads
every finite value as an exact real number: rounding and overflow of finite results are not
modelled.  Zero carries no sign (it behaves as `+0`).

Two effects of the finite range of the format decide what the program does on ordinary inputs:
`exp` underflows to `0` and `erf` saturates at `±1`.  The section `Ranged` gives a second reading
of `exp`, `erf` and of the functions `pdf`, `cdf`, `BSCall`, `Fprime` built on them, in which
these two effects are kept; it is used where a property of the exact reading fails on the
program.
-/

noncomputable section

open Classical

set_option genInjectivity false
set_option genSizeOf false
set_option genSizeOfSpec false

/-! ## Doubles -/

/-- A double, read without rounding: a finite value is an exact real, the three special values
of the format are kept. -/
inductive Dbl where
  | fin (r : ℝ)
  | pinf
  | ninf
  | nan

namespace Dbl

/-- Unary minus. -/
def neg : Dbl → Dbl
  | fin r => fin (-r)
  | pinf => ninf
  | ninf => pinf
  | nan => nan

/-- Addition; opposite infinities give NaN. -/
def add : Dbl → Dbl → Dbl
  | fin a, fin b => fin (a + b)
  | fin _, pinf => pinf
  | fin _, ninf => ninf
  | pinf, fin _ => pinf
  | pinf, pinf => pinf
  | ninf, fin _ => ninf
  | ninf, ninf => ninf
  | _, _ => nan

/-- Subtraction. -/
def sub (a b : Dbl) : Dbl := add a (neg b)

/-- The infinity `+inf` (when `positive`) or `-inf`, multiplied by the sign of the real `a`;
NaN when `a = 0`. -/
def infTimes (positive : Bool) (a : ℝ) : Dbl :=
  if 0 < a then (if positive then pinf else ninf)
  else if a < 0 then (if positive then ninf else pinf)
  else nan

/-- Multiplication; zero times an infinity gives NaN. -/
def mul : Dbl → Dbl → Dbl
  | fin a, fin b => fin (a * b)
  | fin a, pinf => infTimes true a
  | fin a, ninf => infTimes false a
  | pinf, fin b => infTimes true b
  | ninf, fin b => infTimes false b
  | pinf, pinf => pinf
  | ninf, ninf => pinf
  | pinf, ninf => ninf
  | ninf, pinf => ninf
  | _, _ => nan

/-- Division; `0/0` and `inf/inf` give NaN, a nonzero finite value over zero gives the infinity of
its sign, a finite value over an infinity gives zero. -/
def div : Dbl → Dbl → Dbl
  | fin a, fin b => if b = 0 then infTimes true a else fin (a / b)
  | fin _, pinf => fin 0
  | fin _, ninf => fin 0
  | pinf, fin b => if b < 0 then ninf else pinf
  | ninf, fin b => if b < 0 then pinf else ninf
  | _, _ => nan

instance : Neg Dbl := ⟨neg⟩
instance : Add Dbl := ⟨add⟩
instance : Sub Dbl := ⟨sub⟩
instance : Mul Dbl := ⟨mul⟩
instance : Div Dbl := ⟨div⟩

/-- Strict order; every comparison with NaN is false. -/
def lt : Dbl → Dbl → Prop
  | fin a, fin b => a < b
  | fin _, pinf => True
  | ninf, fin _ => True
  | ninf, pinf => True
  | _, _ => False

/-- Weak order; every comparison with NaN is false. -/
def le : Dbl → Dbl → Prop
  | fin a, fin b => a ≤ b
  | fin _, pinf => True
  | ninf, fin _ => True
  | ninf, pinf => True
  | pinf, pinf => True
  | ninf, ninf => True
  | _, _ => False

instance : LT Dbl := ⟨lt⟩
instance : LE Dbl := ⟨le⟩

/-- The function `exp` of `<cmath>`, read on a finite argument as the real exponential: a positive
number for every argument.  The C function overflows to `+inf` above about `709.78` and
underflows to `0` below about `-745.13`; that is left out here and kept in `Ranged.exp`. -/
def exp : Dbl → Dbl
  | fin r => fin (Real.exp r)
  | pinf => pinf
  | ninf => fin 0
  | nan => nan

/-- The function `log` of `<cmath>`. -/
def log : Dbl → Dbl
  | fin r => if 0 < r then fin (Real.log r) else if r = 0 then ninf else nan
  | pinf => pinf
  | ninf => nan
  | nan => nan

/-- The function `sqrt` of `<cmath>`. -/
def sqrt : Dbl → Dbl
  | fin r => if 0 ≤ r then fin (Real.sqrt r) else nan
  | pinf => pinf
  | ninf => nan
  | nan => nan

/-- The call `abs(x)` of `implied_vol` on a double, read as the absolute value of the double
(`std::abs(double)`, the function `fabs`).  The source includes only `<cmath>` and calls `abs`
unqualified: this reading is that of the toolchains whose `<cmath>` declares the floating-point
overloads in the global namespace (MSVC, libc++), and that of the spec, whose tolerance `1e-8`
bounds the difference of two iterates.  Where only `int abs(int)` of `<stdlib.h>` is visible
(g++ with libstdc++) the argument is converted to an integer first; that reading is not
modelled. -/
def abs : Dbl → Dbl
  | fin r => fin |r|
  | pinf => pinf
  | ninf => pinf
  | nan => nan

/-- The call `pow(x, n)` of `<cmath>` for a natural exponent. -/
def pow (x : Dbl) (n : ℕ) : Dbl :=
  if n = 0 then fin 1 else
  match x with
  | fin r => fin (r ^ n)
  | pinf => pinf
  | ninf => if n % 2 = 0 then pinf else ninf
  | nan => nan

/-- The finite value of a double, and `0` for the special values. -/
def toReal : Dbl → ℝ
  | fin r => r
  | _ => 0

end Dbl

/-- The error function on the reals, by its everywhere convergent series
`erf x = 2/√π · Σₙ (-1)ⁿ x²ⁿ⁺¹ / (n! (2n+1))`, the term-by-term integral of
`2/√π ∫₀ˣ exp (-t²) dt`. -/
def erfReal (x : ℝ) : ℝ :=
  2 / Real.sqrt Real.pi
    * tsum (fun n : ℕ => (-1) ^ n * x ^ (2 * n + 1) / ((n.factorial : ℝ) * (2 * n + 1)))

/-- The function `erf` of `<cmath>`, read on a finite argument as the real error function, whose
values lie strictly between `-1` and `1`.  The C function returns exactly `±1` once the argument
reaches `±6` in absolute value; that is left out here and kept in `Ranged.erf`. -/
def Dbl.erf : Dbl → Dbl
  | Dbl.fin r => Dbl.fin (erfReal r)
  | Dbl.pinf => Dbl.fin 1
  | Dbl.ninf => Dbl.fin (-1)
  | Dbl.nan => Dbl.nan

/-! ## NormalDistribution.hpp -/

/-- The constant `M_PI`, written in the source as the decimal expansion `3.14159265358979323846`
of π (more digits than a double holds); it is read as the number π it stands for. -/
def M_PI : Dbl := Dbl.fin Real.pi

/-- The class `NormalDistribution`: a mean and a standard deviation. -/
structure NormalDistribution where
  mean : Dbl
  stddev : Dbl

section Normal
open Dbl

/-- Method `NormalDistribution::pdf`. -/
def NormalDistribution.pdf (self : NormalDistribution) (x : Dbl) : Dbl :=
  (fin 1.0 / (self.stddev * sqrt (fin 2 * M_PI))) *
    exp (-(x - self.mean) * (x - self.mean) / (fin 2 * self.stddev * self.stddev))

/-- Method `NormalDistribution::cdf`. -/
def NormalDistribution.cdf (self : NormalDistribution) (x : Dbl) : Dbl :=
  fin 0.5 * (fin 1 + erf ((x - self.mean) / (self.stddev * sqrt (fin 2))))

end Normal

/-! ## BlackScholes.h -/

section BlackScholes
open Dbl

/-- Function `BSCall`. -/
def BSCall (spot time strike expiry vol rate : Dbl) : Dbl :=
  let vol := vol / fin 100
  let rate := rate / fin 100
  let d1 := (log (spot / strike) + (rate + pow vol 2 / fin 2) * (expiry - time)) / vol
    / sqrt (expiry - time)
  let d2 := (log (spot / strike) + (rate - pow vol 2 / fin 2) * (expiry - time)) / vol
    / sqrt (expiry - time)
  let norm : NormalDistribution := ⟨fin 0, fin 1⟩
  spot * norm.cdf d1 - strike * exp (-rate * (expiry - time)) * norm.cdf d2

/-- Function `BSPut`. -/
def BSPut (spot time strike expiry vol rate : Dbl) : Dbl :=
  let vol := vol / fin 100
  let rate := rate / fin 100
  let d1 := (log (spot / strike) + (rate + pow vol 2 / fin 2) * (expiry - time)) / vol
    / sqrt (expiry - time)
  let d2 := (log (spot / strike) + (rate - pow vol 2 / fin 2) * (expiry - time)) / vol
    / sqrt (expiry - time)
  let norm : NormalDistribution := ⟨fin 0, fin 1⟩;
  -spot * norm.cdf (-d1) + strike * exp (-rate * (expiry - time)) * norm.cdf (-d2)

/-- Function `BSCall_Delta`. -/
def BSCall_Delta (spot time strike expiry vol rate : Dbl) : Dbl :=
  let vol := vol / fin 100
  let rate := rate / fin 100
  let norm : NormalDistribution := ⟨fin 0, fin 1⟩
  let d1 := (log (spot / strike) + (rate + pow vol 2 / fin 2) * (expiry - time)) / vol
    / sqrt (expiry - time)
  norm.cdf d1

/-- Function `BSPut_Delta`. -/
def BSPut_Delta (spot time strike expiry vol rate : Dbl) : Dbl :=
  let vol := vol / fin 100
  let rate := rate / fin 100
  let norm : NormalDistribution := ⟨fin 0, fin 1⟩
  let d1 := (log (spot / strike) + (rate + pow vol 2 / fin 2) * (expiry - time)) / vol
    / sqrt (expiry - time);
  -norm.cdf (-d1)

/-- Function `BSCall_Gamma`. -/
def BSCall_Gamma (spot time strike expiry vol rate : Dbl) : Dbl :=
  let vol := vol / fin 100
  let rate := rate / fin 100
  let norm : NormalDistribution := ⟨fin 0, fin 1⟩
  let d1 := (log (spot / strike) + (rate + pow vol 2 / fin 2) * (expiry - time)) / vol
    / sqrt (expiry - time)
  norm.pdf d1 / spot / vol / sqrt (expiry - time)

/-- Function `BSPut_Gamma`. -/
def BSPut_Gamma (spot time strike expiry vol rate : Dbl) : Dbl :=
  let vol := vol / fin 100
  let rate := rate / fin 100
  let norm : NormalDistribution := ⟨fin 0, fin 1⟩
  let d1 := (log (spot / strike) + (rate + pow vol 2 / fin 2) * (expiry - time)) / vol
    / sqrt (expiry - time)
  norm.pdf d1 / spot / vol / sqrt (expiry - time)

/-- Function `BSCall_Theta`. -/
def BSCall_Theta (spot time strike expiry vol rate : Dbl) : Dbl :=
  let vol := vol / fin 100
  let rate := rate / fin 100
  let d1 := (log (spot / strike) + (rate + pow vol 2 / fin 2) * (expiry - time)) / vol
    / sqrt (expiry - time)
  let d2 := (log (spot / strike) + (rate - pow vol 2 / fin 2) * (expiry - time)) / vol
    / sqrt (expiry - time)
  let norm : NormalDistribution := ⟨fin 0, fin 1⟩
  let theta := -spot * vol * norm.pdf d1 / fin 2 / sqrt (expiry - time)
    - rate * strike * exp (-rate * (expiry - time)) * norm.cdf d2
  theta / fin 365

/-- Function `BSPut_Theta`. -/
def BSPut_Theta (spot time strike expiry vol rate : Dbl) : Dbl :=
  let vol := vol / fin 100
  let rate := rate / fin 100
  let d1 := (log (spot / strike) + (rate + pow vol 2 / fin 2) * (expiry - time)) / vol
    / sqrt (expiry - time)
  let norm : NormalDistribution := ⟨fin 0, fin 1⟩
  let d2 := (log (spot / strike) + (rate - pow vol 2 / fin 2) * (expiry - time)) / vol
    / sqrt (expiry - time)
  let theta := -spot * vol * norm.pdf d1 / fin 2 / sqrt (expiry - time)
    + rate * strike * exp (-rate * (expiry - time)) * norm.cdf (-d2)
  theta / fin 365

/-- Function `BSCall_Vega`. -/
def BSCall_Vega (spot time strike expiry vol rate : Dbl) : Dbl :=
  let vol := vol / fin 100
  let rate := rate / fin 100
  let norm : NormalDistribution := ⟨fin 0, fin 1⟩
  let d1 := (log (spot / strike) + (rate + pow vol 2 / fin 2) * (expiry - time)) / vol
    / sqrt (expiry - time)
  spot * sqrt (expiry - time) * norm.pdf d1 / fin 100

/-- Function `BSPut_Vega`. -/
def BSPut_Vega (spot time strike expiry vol rate : Dbl) : Dbl :=
  let vol := vol / fin 100
  let rate := rate / fin 100
  let norm : NormalDistribution := ⟨fin 0, fin 1⟩
  let d1 := (log (spot / strike) + (rate + pow vol 2 / fin 2) * (expiry - time)) / vol
    / sqrt (expiry - time)
  spot * sqrt (expiry - time) * norm.pdf d1 / fin 100

end BlackScholes

/-! ## ImpliedVol.hpp -/

/-- How a call of `implied_vol` ends: it returns a double, it throws `std::invalid_argument`, or
its `while` loop is still running after the number of iterations the model was given. -/
inductive Outcome where
  | returned (v : Dbl)
  | invalid_argument
  | running

namespace ImpliedVol
open Dbl

/-- The lambda `F` of `implied_vol`, with its captured variables as arguments. -/
def F (theta x : Dbl) (norm : NormalDistribution) (sigma : Dbl) : Dbl :=
  theta * exp (x / fin 2) * norm.cdf (theta * (x / sigma + sigma / fin 2)) -
    theta * exp (-x / fin 2) * norm.cdf (theta * (x / sigma - sigma / fin 2))

/-- The lambda `Fprime` of `implied_vol`, with its captured variables as arguments. -/
def Fprime (theta x : Dbl) (norm : NormalDistribution) (sigma : Dbl) : Dbl :=
  exp (x / fin 2) * norm.pdf (theta * (x / sigma + sigma / fin 2))
      * (-x / (sigma * sigma) + fin 0.5) -
    exp (-x / fin 2) * norm.pdf (theta * (x / sigma - sigma / fin 2))
      * (-x / (sigma * sigma) - fin 0.5)

/-- The lambda `G` of `implied_vol`, with its captured variables as arguments. -/
def G (iota scaled_price : Dbl) (F : Dbl → Dbl) (sigma : Dbl) : Dbl :=
  log (F sigma - iota) - log (scaled_price - iota)

/-- The lambda `Gprime` of `implied_vol`, with its captured variables as arguments. -/
def Gprime (iota : Dbl) (F Fprime : Dbl → Dbl) (sigma : Dbl) : Dbl :=
  Fprime sigma / (F sigma - iota)

/-- The loop `while (abs(new_sigma - old_sigma) > tolerance) { old_sigma = new_sigma;
new_sigma = step(old_sigma); }`, run for at most `fuel` passes of its body: the final
`new_sigma` when the loop exits, `none` when its condition still holds after `fuel` passes. -/
def newton_loop (step : Dbl → Dbl) (tolerance : Dbl) : ℕ → Dbl → Dbl → Option Dbl
  | 0, old_sigma, new_sigma =>
    if abs (new_sigma - old_sigma) > tolerance then none else some new_sigma
  | fuel + 1, old_sigma, new_sigma =>
    if abs (new_sigma - old_sigma) > tolerance then
      newton_loop step tolerance fuel new_sigma (step new_sigma)
    else some new_sigma

end ImpliedVol

section Solver
open Dbl ImpliedVol

/-- Function `implied_vol`; `fuel` bounds the number of passes of the `while` loop. -/
def implied_vol (fuel : ℕ) (price spot strike expiry rate : Dbl) : Outcome :=
  let rate := rate / fin 100
  let tolerance := fin 0.00000001
  let theta := fin 1
  if spot - exp (-rate * expiry) * strike ≥ price ∨ price ≥ spot then
    Outcome.invalid_argument
  else
    let x := log (exp (rate * expiry) * spot / strike)
    let scaled_price := price * exp (rate * expiry / fin 2) / sqrt (spot * strike)
    let norm : NormalDistribution := ⟨fin 0, fin 1⟩
    let F := ImpliedVol.F theta x norm
    let Fprime := ImpliedVol.Fprime theta x norm
    let sigma_c := sqrt (fin 2 * abs x)
    let b_c := F sigma_c
    if scaled_price ≥ b_c then
      let pval := (exp (theta * x / fin 2) - scaled_price) * norm.cdf (-sqrt (abs x / fin 2))
        / (exp (theta * x / fin 2) - b_c)
      let old_sigma := -fin 2 * norm.pdf pval
      let new_sigma := old_sigma - (F old_sigma - scaled_price) / Fprime old_sigma
      match newton_loop
          (fun old_sigma => old_sigma - (F old_sigma - scaled_price) / Fprime old_sigma)
          tolerance fuel old_sigma new_sigma with
      | some new_sigma => Outcome.returned (fin 100 * new_sigma / sqrt expiry)
      | none => Outcome.running
    else
      let iota :=
        if theta * x ≤ fin 0 then fin 0 else theta * (exp (x / fin 2) - exp (-x / fin 2))
      let G := ImpliedVol.G iota scaled_price F
      let Gprime := ImpliedVol.Gprime iota F Fprime
      let old_sigma := sqrt (fin 2 * x * x
        / (abs x - fin 4 * log ((scaled_price - iota) / (b_c - iota))))
      let new_sigma := old_sigma - G old_sigma / Gprime old_sigma
      match newton_loop (fun old_sigma => old_sigma - G old_sigma / Gprime old_sigma)
          tolerance fuel old_sigma new_sigma with
      | some new_sigma => Outcome.returned (fin 100 * new_sigma / sqrt expiry)
      | none => Outcome.running

end Solver

/-! ## The values computed on finite arguments -/

/-- The standard normal distribution function, as `cdf` computes it on a finite argument. -/
def Phi (x : ℝ) : ℝ := 0.5 * (1 + erfReal ((x - 0) / (1 * Real.sqrt 2)))

/-- The standard normal density, as `pdf` computes it on a finite argument. -/
def phi (x : ℝ) : ℝ :=
  1.0 / (1 * Real.sqrt (2 * Real.pi)) * Real.exp (-(x - 0) * (x - 0) / (2 * 1 * 1))

/-- The quantity `d1` of the Black-Scholes functions on finite arguments. -/
def d1R (spot time strike expiry vol rate : ℝ) : ℝ :=
  (Real.log (spot / strike) + (rate / 100 + (vol / 100) ^ 2 / 2) * (expiry - time)) / (vol / 100)
    / Real.sqrt (expiry - time)

/-- The quantity `d2` of the Black-Scholes functions on finite arguments. -/
def d2R (spot time strike expiry vol rate : ℝ) : ℝ :=
  (Real.log (spot / strike) + (rate / 100 - (vol / 100) ^ 2 / 2) * (expiry - time)) / (vol / 100)
    / Real.sqrt (expiry - time)

/-! ## options.h -/

namespace options

/-- How a method call ends: it returns a value or throws `std::invalid_argument` with a
message. -/
inductive Result (α : Type) where
  | value (a : α)
  | invalid_argument (what : String)

/-- A call has thrown. -/
def Result.raised {α : Type} : Result α → Prop
  | Result.value _ => False
  | Result.invalid_argument _ => True

/-- Class `Option`, with its three private fields.  The constructor
`Option(strike, expiry, type)` stores its arguments as they are. -/
structure Option where
  strike : Dbl
  expiry : Dbl
  type : String

/-- Method `Option::get_strike`: the result and the object after the call. -/
def Option.get_strike (self : Option) : Result Dbl × Option :=
  (Result.value self.strike, self)

/-- Method `Option::get_expiry`. -/
def Option.get_expiry (self : Option) : Result Dbl × Option :=
  (Result.value self.expiry, self)

/-- Method `Option::get_type`. -/
def Option.get_type (self : Option) : Result String × Option :=
  (Result.value self.type, self)

/-- Method `Option::set_strike`: the `throw` comes before the assignment. -/
def Option.set_strike (self : Option) (_strike : Dbl) : Result Unit × Option :=
  (Result.invalid_argument "Strike price can not be empty", self)

/-- Method `Option::set_expiry`: the `throw` comes before the assignment. -/
def Option.set_expiry (self : Option) (_expiry : Dbl) : Result Unit × Option :=
  (Result.invalid_argument "Must provide an expiry", self)

/-- Method `Option::set_type`. -/
def Option.set_type (self : Option) (_type : String) : Result Unit × Option :=
  if _type = "call" then (Result.value (), { self with type := _type })
  else if _type = "put" then (Result.value (), { self with type := _type })
  else (Result.invalid_argument "Must provide a type", self)

/-- Method `Option::price`. -/
def Option.price (self : Option) (spot time vol rate : Dbl) : Result Dbl × Option :=
  if time > self.expiry then
    (Result.invalid_argument "Evaluation time must precede expiry", self)
  else if self.type = "call" then
    (Result.value (BSCall spot time self.strike self.expiry vol rate), self)
  else if self.type ≠ "put" then (Result.invalid_argument "Invalid type", self)
  else (Result.value (BSPut spot time self.strike self.expiry vol rate), self)

/-- Method `Option::delta`. -/
def Option.delta (self : Option) (spot time vol rate : Dbl) : Result Dbl × Option :=
  if time > self.expiry then
    (Result.invalid_argument "Evaluation time must precede expiry", self)
  else if self.type = "call" then
    (Result.value (BSCall_Delta spot time self.strike self.expiry vol rate), self)
  else if self.type ≠ "put" then (Result.invalid_argument "Invalid type", self)
  else (Result.value (BSPut_Delta spot time self.strike self.expiry vol rate), self)

/-- Method `Option::gamma`. -/
def Option.gamma (self : Option) (spot time vol rate : Dbl) : Result Dbl × Option :=
  if time > self.expiry then
    (Result.invalid_argument "Evaluation time must precede expiry", self)
  else if self.type = "call" then
    (Result.value (BSCall_Gamma spot time self.strike self.expiry vol rate), self)
  else if self.type ≠ "put" then (Result.invalid_argument "Invalid type", self)
  else (Result.value (BSPut_Gamma spot time self.strike self.expiry vol rate), self)

/-- Method `Option::vega`. -/
def Option.vega (self : Option) (spot time vol rate : Dbl) : Result Dbl × Option :=
  if time > self.expiry then
    (Result.invalid_argument "Evaluation time must precede expiry", self)
  else if self.type = "call" then
    (Result.value (BSCall_Vega spot time self.strike self.expiry vol rate), self)
  else if self.type ≠ "put" then (Result.invalid_argument "Invalid type", self)
  else (Result.value (BSPut_Vega spot time self.strike self.expiry vol rate), self)

/-- Method `Option::theta`. -/
def Option.theta (self : Option) (spot time vol rate : Dbl) : Result Dbl × Option :=
  if time > self.expiry then
    (Result.invalid_argument "Evaluation time must precede expiry", self)
  else if self.type = "call" then
    (Result.value (BSCall_Theta spot time self.strike self.expiry vol rate), self)
  else if self.type ≠ "put" then (Result.invalid_argument "Invalid type", self)
  else (Result.value (BSPut_Theta spot time self.strike self.expiry vol rate), self)

/-- A call of one public method of `Option`, with its arguments. -/
inductive MethodCall where
  | get_strike
  | get_expiry
  | get_type
  | set_strike (_strike : Dbl)
  | set_expiry (_expiry : Dbl)
  | set_type (_type : String)
  | price (spot time vol rate : Dbl)
  | delta (spot time vol rate : Dbl)
  | gamma (spot time vol rate : Dbl)
  | vega (spot time vol rate : Dbl)
  | theta (spot time vol rate : Dbl)

/-- The object after one method call (an exception thrown by the call is caught by the caller). -/
def Option.after (self : Option) : MethodCall → Option
  | MethodCall.get_strike => self.get_strike.2
  | MethodCall.get_expiry => self.get_expiry.2
  | MethodCall.get_type => self.get_type.2
  | MethodCall.set_strike k => (self.set_strike k).2
  | MethodCall.set_expiry e => (self.set_expiry e).2
  | MethodCall.set_type t => (self.set_type t).2
  | MethodCall.price s t v r => (self.price s t v r).2
  | MethodCall.delta s t v r => (self.delta s t v r).2
  | MethodCall.gamma s t v r => (self.gamma s t v r).2
  | MethodCall.vega s t v r => (self.vega s t v r).2
  | MethodCall.theta s t v r => (self.theta s t v r).2

/-- The object after a sequence of method calls. -/
def Option.afterAll (self : Option) (calls : List MethodCall) : Option :=
  calls.foldl Option.after self

end options

/-! ## The local variables of `implied_vol` -/

namespace ImpliedVol
open Dbl

/-- The local `x` of `implied_vol`, as a function of the arguments. -/
def x (spot strike expiry rate : Dbl) : Dbl :=
  log (exp (rate / fin 100 * expiry) * spot / strike)

/-- The local `scaled_price` of `implied_vol`, as a function of the arguments. -/
def scaled_price (price spot strike expiry rate : Dbl) : Dbl :=
  price * exp (rate / fin 100 * expiry / fin 2) / sqrt (spot * strike)

/-- The local `sigma_c` of `implied_vol`. -/
def sigma_c (x : Dbl) : Dbl := sqrt (fin 2 * abs x)

/-- The local `iota` of Branch B. -/
def iota (theta x : Dbl) : Dbl :=
  if theta * x ≤ fin 0 then fin 0 else theta * (exp (x / fin 2) - exp (-x / fin 2))

/-- The first `old_sigma` of `implied_vol` (with `theta = 1`): `-2 * norm.pdf(pval)` in
Branch A, where `scaled_price >= b_c`, and the closed-form guess of Branch B otherwise. -/
def old_sigma_0 (x scaled_price : Dbl) : Dbl :=
  let norm : NormalDistribution := ⟨fin 0, fin 1⟩
  let b_c := F (fin 1) x norm (sigma_c x)
  if scaled_price ≥ b_c then
    let pval := (exp (fin 1 * x / fin 2) - scaled_price) * norm.cdf (-sqrt (abs x / fin 2))
      / (exp (fin 1 * x / fin 2) - b_c);
    -fin 2 * norm.pdf pval
  else
    sqrt (fin 2 * x * x
      / (abs x - fin 4 * log ((scaled_price - iota (fin 1) x) / (b_c - iota (fin 1) x))))

/-- The Newton update of `implied_vol` (with `theta = 1`):
`old_sigma - (F(old_sigma) - scaled_price) / Fprime(old_sigma)` in Branch A, where
`scaled_price >= b_c`, and `old_sigma - G(old_sigma) / Gprime(old_sigma)` in Branch B. -/
def step (x scaled_price old_sigma : Dbl) : Dbl :=
  let norm : NormalDistribution := ⟨fin 0, fin 1⟩
  let b_c := F (fin 1) x norm (sigma_c x)
  if scaled_price ≥ b_c then
    old_sigma - (F (fin 1) x norm old_sigma - scaled_price) / Fprime (fin 1) x norm old_sigma
  else
    old_sigma - G (iota (fin 1) x) scaled_price (F (fin 1) x norm) old_sigma
      / Gprime (iota (fin 1) x) (F (fin 1) x norm) (Fprime (fin 1) x norm) old_sigma

/-- The Newton iterates from a first `old_sigma`: number `0` is the seed, number `n + 1` is the
update of number `n`. -/
def iterate (step : Dbl → Dbl) (seed : Dbl) : ℕ → Dbl
  | 0 => seed
  | n + 1 => step (iterate step seed n)

/-- The Newton iterates of `implied_vol` on its arguments: number `0` is the first `old_sigma`,
number `1` the first `new_sigma`, and every pass of the loop moves `old_sigma`, `new_sigma` from
the numbers `n`, `n + 1` to the numbers `n + 1`, `n + 2`. -/
def sigma (price spot strike expiry rate : Dbl) (n : ℕ) : Dbl :=
  iterate (step (x spot strike expiry rate) (scaled_price price spot strike expiry rate))
    (old_sigma_0 (x spot strike expiry rate) (scaled_price price spot strike expiry rate)) n

end ImpliedVol

/-! ## The range of `exp` and `erf` in double precision

The largest double is below `2^1024 < e^710` and the least positive double is
`2^(-1074) > 2 e^(-746)`; the double next below `1` is `1 - 2^(-53)`, and
`1 - erf 6 < 2^(-54)`.  So in double precision `exp r` is `+inf` for `r > 710` and `0` for
`r < -746`, and `erf r` is `1` for `r ≥ 6` and `-1` for `r ≤ -6`.  The definitions of this section
keep these four facts and read every other finite value as exact, as before. -/

/-- The function `exp` of `<cmath>`, with the overflow and the underflow of its result. -/
def Ranged.exp : Dbl → Dbl
  | Dbl.fin r =>
    if 710 < r then Dbl.pinf else if r < -746 then Dbl.fin 0 else Dbl.fin (Real.exp r)
  | Dbl.pinf => Dbl.pinf
  | Dbl.ninf => Dbl.fin 0
  | Dbl.nan => Dbl.nan

/-- The function `erf` of `<cmath>`, with the saturation of its result. -/
def Ranged.erf : Dbl → Dbl
  | Dbl.fin r =>
    if 6 ≤ r then Dbl.fin 1 else if r ≤ -6 then Dbl.fin (-1) else Dbl.fin (erfReal r)
  | Dbl.pinf => Dbl.fin 1
  | Dbl.ninf => Dbl.fin (-1)
  | Dbl.nan => Dbl.nan

/-- Method `NormalDistribution::pdf`, over `Ranged.exp`. -/
def Ranged.pdf (self : NormalDistribution) (x : Dbl) : Dbl :=
  (Dbl.fin 1.0 / (self.stddev * Dbl.sqrt (Dbl.fin 2 * M_PI))) *
    Ranged.exp (-(x - self.mean) * (x - self.mean) / (Dbl.fin 2 * self.stddev * self.stddev))

/-- Method `NormalDistribution::cdf`, over `Ranged.erf`. -/
def Ranged.cdf (self : NormalDistribution) (x : Dbl) : Dbl :=
  Dbl.fin 0.5 * (Dbl.fin 1 + Ranged.erf ((x - self.mean) / (self.stddev * Dbl.sqrt (Dbl.fin 2))))

/-- Function `BSCall`, over `Ranged.exp` and `Ranged.cdf`. -/
def Ranged.BSCall (spot time strike expiry vol rate : Dbl) : Dbl :=
  let vol := vol / Dbl.fin 100
  let rate := rate / Dbl.fin 100
  let d1 := (Dbl.log (spot / strike) + (rate + Dbl.pow vol 2 / Dbl.fin 2) * (expiry - time)) / vol
    / Dbl.sqrt (expiry - time)
  let d2 := (Dbl.log (spot / strike) + (rate - Dbl.pow vol 2 / Dbl.fin 2) * (expiry - time)) / vol
    / Dbl.sqrt (expiry - time)
  let norm : NormalDistribution := ⟨Dbl.fin 0, Dbl.fin 1⟩
  spot * Ranged.cdf norm d1 - strike * Ranged.exp (-rate * (expiry - time)) * Ranged.cdf norm d2

/-- The lambda `Fprime` of `implied_vol`, over `Ranged.exp` and `Ranged.pdf`. -/
def Ranged.Fprime (theta x : Dbl) (norm : NormalDistribution) (sigma : Dbl) : Dbl :=
  Ranged.exp (x / Dbl.fin 2) * Ranged.pdf norm (theta * (x / sigma + sigma / Dbl.fin 2))
      * (-x / (sigma * sigma) + Dbl.fin 0.5) -
    Ranged.exp (-x / Dbl.fin 2) * Ranged.pdf norm (theta * (x / sigma - sigma / Dbl.fin 2))
      * (-x / (sigma * sigma) - Dbl.fin 0.5)

set_option maxHeartbeats 1600000

/-! ## Arithmetic of doubles -/

/-- On finite values the operations of `Dbl` are those of the reals, where the real operation is
defined: a nonzero divisor, a positive argument of `log`, a non-negative argument of `sqrt`. -/
theorem Dbl.fin_rules :
    (∀ a b : ℝ, Dbl.fin a + Dbl.fin b = Dbl.fin (a + b))
    ∧ (∀ a b : ℝ, Dbl.fin a - Dbl.fin b = Dbl.fin (a - b))
    ∧ (∀ a b : ℝ, Dbl.fin a * Dbl.fin b = Dbl.fin (a * b))
    ∧ (∀ a : ℝ, -Dbl.fin a = Dbl.fin (-a))
    ∧ (∀ a b : ℝ, b ≠ 0 → Dbl.fin a / Dbl.fin b = Dbl.fin (a / b))
    ∧ (∀ a : ℝ, Dbl.fin a / Dbl.fin 2 = Dbl.fin (a / 2))
    ∧ (∀ a : ℝ, Dbl.fin a / Dbl.fin 100 = Dbl.fin (a / 100))
    ∧ (∀ a : ℝ, Dbl.exp (Dbl.fin a) = Dbl.fin (Real.exp a))
    ∧ (∀ a : ℝ, 0 < a → Dbl.log (Dbl.fin a) = Dbl.fin (Real.log a))
    ∧ (∀ a : ℝ, 0 ≤ a → Dbl.sqrt (Dbl.fin a) = Dbl.fin (Real.sqrt a))
    ∧ (∀ a : ℝ, Dbl.abs (Dbl.fin a) = Dbl.fin |a|)
    ∧ (∀ a : ℝ, Dbl.pow (Dbl.fin a) 2 = Dbl.fin (a ^ 2))
    ∧ (∀ a : ℝ, Dbl.toReal (Dbl.fin a) = a)
    ∧ (∀ a b : ℝ, Dbl.fin a ≤ Dbl.fin b ↔ a ≤ b)
    ∧ (∀ a b : ℝ, Dbl.fin a < Dbl.fin b ↔ a < b) := by
  have hdiv : ∀ a b : ℝ, b ≠ 0 → Dbl.fin a / Dbl.fin b = Dbl.fin (a / b) := by
    intro a b h
    show (if b = 0 then Dbl.infTimes true a else Dbl.fin (a / b)) = _
    rw [if_neg h]
  refine ⟨fun _ _ => rfl, fun a b => ?_, fun _ _ => rfl, fun _ => rfl, hdiv,
    fun a => hdiv a 2 two_ne_zero, fun a => hdiv a 100 (by norm_num), fun _ => rfl,
    fun a h => ?_, fun a h => ?_, fun _ => rfl, fun a => ?_, fun _ => rfl,
    fun _ _ => Iff.rfl, fun _ _ => Iff.rfl⟩
  · show Dbl.fin (a + -b) = Dbl.fin (a - b)
    rw [sub_eq_add_neg]
  · show (if 0 < a then Dbl.fin (Real.log a) else if a = 0 then Dbl.ninf else Dbl.nan) = _
    rw [if_pos h]
  · show (if 0 ≤ a then Dbl.fin (Real.sqrt a) else Dbl.nan) = _
    rw [if_pos h]
  · show (if (2 : ℕ) = 0 then Dbl.fin 1 else Dbl.fin (a ^ 2)) = _
    rw [if_neg (by decide)]

/-- NaN propagates through the arithmetic, every comparison with NaN is false, `0/0` is NaN, and
`a ≤ b` excludes `b < a`. -/
theorem Dbl.nan_rules :
    (∀ a : Dbl, Dbl.nan + a = Dbl.nan) ∧ (∀ a : Dbl, a + Dbl.nan = Dbl.nan)
    ∧ (∀ a : Dbl, Dbl.nan - a = Dbl.nan) ∧ (∀ a : Dbl, a - Dbl.nan = Dbl.nan)
    ∧ (∀ a : Dbl, Dbl.nan * a = Dbl.nan) ∧ (∀ a : Dbl, a * Dbl.nan = Dbl.nan)
    ∧ (∀ a : Dbl, Dbl.nan / a = Dbl.nan) ∧ (∀ a : Dbl, a / Dbl.nan = Dbl.nan)
    ∧ -Dbl.nan = Dbl.nan ∧ Dbl.exp Dbl.nan = Dbl.nan ∧ Dbl.log Dbl.nan = Dbl.nan
    ∧ Dbl.sqrt Dbl.nan = Dbl.nan ∧ Dbl.abs Dbl.nan = Dbl.nan
    ∧ Dbl.fin 0 / Dbl.fin 0 = Dbl.nan
    ∧ (∀ a : Dbl, ¬ Dbl.nan ≤ a) ∧ (∀ a : Dbl, ¬ a ≤ Dbl.nan)
    ∧ (∀ a : Dbl, ¬ Dbl.nan < a) ∧ (∀ a : Dbl, ¬ a < Dbl.nan)
    ∧ (∀ a b : Dbl, a ≤ b → ¬ b < a) := by
  refine ⟨fun a => by cases a <;> rfl, fun a => by cases a <;> rfl,
    fun a => by cases a <;> rfl, fun a => by cases a <;> rfl,
    fun a => by cases a <;> rfl, fun a => by cases a <;> rfl,
    fun a => by cases a <;> rfl, fun a => by cases a <;> rfl,
    rfl, rfl, rfl, rfl, rfl, ?_,
    fun a => by cases a <;> exact fun h => h, fun a => by cases a <;> exact fun h => h,
    fun a => by cases a <;> exact fun h => h, fun a => by cases a <;> exact fun h => h,
    fun a b h => ?_⟩
  · show (if (0 : ℝ) = 0 then Dbl.infTimes true 0 else Dbl.fin (0 / 0)) = _
    rw [if_pos rfl]
    show (if (0 : ℝ) < 0 then _ else if (0 : ℝ) < 0 then _ else Dbl.nan) = _
    rw [if_neg (lt_irrefl 0), if_neg (lt_irrefl 0)]
  · cases a <;> cases b <;> first
      | exact fun h2 => h2
      | exact fun _ => h
      | exact fun h2 => absurd (show _ < _ from h2) (not_lt.mpr (show (_ : ℝ) ≤ _ from h))

/-! ## The normal density and distribution function -/

/-- The density is `exp(-x²/2)/√(2π)` and is positive. -/
theorem phi_facts :
    (∀ x : ℝ, phi x = Real.exp (-(x ^ 2) / 2) / Real.sqrt (2 * Real.pi))
    ∧ (∀ x : ℝ, 0 < phi x) := by
  have hs : 0 < Real.sqrt (2 * Real.pi) := Real.sqrt_pos.mpr (by positivity)
  constructor
  · intro x
    show 1.0 / (1 * Real.sqrt (2 * Real.pi)) * Real.exp (-(x - 0) * (x - 0) / (2 * 1 * 1)) = _
    have h : -(x - 0) * (x - 0) / (2 * 1 * 1) = -(x ^ 2) / 2 := by ring
    rw [h]; norm_num; ring
  · intro x
    show 0 < 1.0 / (1 * Real.sqrt (2 * Real.pi)) * Real.exp (-(x - 0) * (x - 0) / (2 * 1 * 1))
    positivity

/-- The distribution function `Phi` has derivative `phi`, satisfies `Phi(-x) = 1 - Phi(x)`, is
strictly increasing, takes the value `1/2` at `0`, and stays below `1/2 + x/2` for `x ≥ 0`. -/
theorem Phi_facts :
    (∀ x : ℝ, HasDerivAt Phi (phi x) x)
    ∧ (∀ x : ℝ, Phi (-x) = 1 - Phi x)
    ∧ (∀ x y : ℝ, x < y → Phi x < Phi y)
    ∧ Phi 0 = 1 / 2
    ∧ (∀ x : ℝ, 0 ≤ x → Phi x ≤ 1 / 2 + x / 2) := by
  obtain ⟨phi_eq, phi_pos⟩ := phi_facts
  have hE : ∀ x : ℝ, erfReal x = 2 / Real.sqrt Real.pi
      * tsum (fun n : ℕ => (-1) ^ n * x ^ (2 * n + 1) / ((n.factorial : ℝ) * (2 * n + 1))) :=
    fun _ => rfl
  have hP : ∀ x : ℝ, Phi x = 0.5 * (1 + erfReal ((x - 0) / (1 * Real.sqrt 2))) := fun _ => rfl
  have hz : (fun n : ℕ =>
      (-1 : ℝ) ^ n * (0:ℝ) ^ (2 * n + 1) / ((n.factorial : ℝ) * (2 * n + 1))) = fun _ => 0 := by
    funext n
    rw [zero_pow (Nat.succ_ne_zero _), mul_zero, zero_div]
  -- the series of `erf` is differentiated term by term
  have hderiv : ∀ x : ℝ,
      HasDerivAt erfReal (2 / Real.sqrt Real.pi * Real.exp (-(x * x))) x := by
    intro x
    have hR : (0:ℝ) < |x| + 1 := by positivity
    have hx : x ∈ Metric.ball (0:ℝ) (|x| + 1) := by
      rw [Metric.mem_ball, dist_zero_right, Real.norm_eq_abs]; linarith
    have h0 : (0:ℝ) ∈ Metric.ball (0:ℝ) (|x| + 1) := Metric.mem_ball_self hR
    have hsum : Summable (fun n : ℕ => ((|x| + 1) ^ 2) ^ n / (n.factorial : ℝ)) :=
      Real.summable_pow_div_factorial _
    have hg : ∀ (n : ℕ) (y : ℝ), y ∈ Metric.ball (0:ℝ) (|x| + 1) →
        HasDerivAt
          (fun z : ℝ => (-1) ^ n * z ^ (2 * n + 1) / ((n.factorial : ℝ) * (2 * n + 1)))
          ((-1) ^ n * y ^ (2 * n) / (n.factorial : ℝ)) y := by
      intro n y _
      have h := ((hasDerivAt_pow (2 * n + 1) y).const_mul ((-1 : ℝ) ^ n)).div_const
        ((n.factorial : ℝ) * (2 * n + 1))
      convert h using 1
      have hf : (n.factorial : ℝ) ≠ 0 := Nat.cast_ne_zero.mpr (Nat.factorial_ne_zero n)
      have hn : (2 * (n:ℝ) + 1) ≠ 0 := by positivity
      field_simp
      ring
    have hb : ∀ (n : ℕ) (y : ℝ), y ∈ Metric.ball (0:ℝ) (|x| + 1) →
        ‖(-1) ^ n * y ^ (2 * n) / (n.factorial : ℝ)‖
          ≤ ((|x| + 1) ^ 2) ^ n / (n.factorial : ℝ) := by
      intro n y hy
      rw [Metric.mem_ball, dist_zero_right, Real.norm_eq_abs] at hy
      rw [Real.norm_eq_abs, abs_div, abs_mul, abs_pow, abs_neg, abs_one, one_pow, one_mul,
        abs_pow, Nat.abs_cast, pow_mul]
      apply div_le_div_of_nonneg_right _ (Nat.cast_nonneg _)
      apply pow_le_pow_left₀ (by positivity)
      apply pow_le_pow_left₀ (abs_nonneg y) hy.le
    have hs0 : Summable (fun n : ℕ =>
        (-1 : ℝ) ^ n * (0:ℝ) ^ (2 * n + 1) / ((n.factorial : ℝ) * (2 * n + 1))) := by
      rw [hz]
      exact summable_zero
    have h := hasDerivAt_tsum_of_isPreconnected hsum Metric.isOpen_ball
      (convex_ball (0:ℝ) (|x| + 1)).isPreconnected hg hb h0 hs0 hx
    have he : tsum (fun n : ℕ => (-1 : ℝ) ^ n * x ^ (2 * n) / (n.factorial : ℝ))
        = Real.exp (-(x * x)) := by
      rw [Real.exp_eq_exp_ℝ, NormedSpace.exp_eq_tsum_div]
      congr 1
      funext n
      rw [neg_pow (x * x), ← sq, ← pow_mul]
    rw [he] at h
    exact h.const_mul _
  have hodd : ∀ x : ℝ, erfReal (-x) = -erfReal x := by
    intro x
    rw [hE, hE, ← mul_neg, ← tsum_neg]
    congr 2
    funext n
    rw [Odd.neg_pow ⟨n, rfl⟩]
    ring
  have hzero : erfReal 0 = 0 := by
    rw [hE, hz, tsum_zero, mul_zero]
  have hmono : StrictMono erfReal := by
    apply strictMono_of_deriv_pos
    intro x
    rw [(hderiv x).deriv]
    positivity
  have hD : ∀ x : ℝ, HasDerivAt Phi (phi x) x := by
    intro x
    have hin : HasDerivAt (fun y : ℝ => (y - 0) / (1 * Real.sqrt 2)) (1 / (1 * Real.sqrt 2)) x :=
      ((hasDerivAt_id x).sub_const 0).div_const _
    have h := (((hderiv ((x - 0) / (1 * Real.sqrt 2))).comp x hin).const_add 1).const_mul
      (0.5 : ℝ)
    convert h using 1
    rw [phi_eq, Real.sqrt_mul (by norm_num : (0:ℝ) ≤ 2)]
    have hpi : 0 < Real.sqrt Real.pi := Real.sqrt_pos.mpr Real.pi_pos
    have h2 : (0:ℝ) < Real.sqrt 2 := Real.sqrt_pos.mpr (by norm_num)
    have e : -(((x - 0) / (1 * Real.sqrt 2)) * ((x - 0) / (1 * Real.sqrt 2))) = -(x ^ 2) / 2 := by
      field_simp
      ring
    rw [e]
    field_simp
    ring
  have hP0 : Phi 0 = 1 / 2 := by
    rw [hP, sub_zero, zero_div, hzero]; norm_num
  refine ⟨hD, fun x => ?_, fun x y hxy => ?_, hP0, fun x hx => ?_⟩
  · rw [hP, hP]
    have h : (-x - 0) / (1 * Real.sqrt 2) = -((x - 0) / (1 * Real.sqrt 2)) := by ring
    rw [h, hodd]; ring
  · rw [hP, hP]
    have h : (x - 0) / (1 * Real.sqrt 2) < (y - 0) / (1 * Real.sqrt 2) := by
      apply div_lt_div_of_pos_right _ (by positivity); linarith
    have := hmono h
    linarith
  · have hs : (2:ℝ) ≤ Real.sqrt (2 * Real.pi) := by
      apply Real.le_sqrt_of_sq_le
      have := Real.two_le_pi
      linarith
    have hphi : ∀ t : ℝ, phi t ≤ 1 / 2 := by
      intro t
      rw [phi_eq, div_le_iff₀ (by linarith)]
      have h1 : Real.exp (-(t ^ 2) / 2) ≤ 1 := by
        rw [Real.exp_le_one_iff]
        have := sq_nonneg t
        linarith
      linarith
    have hk : ∀ t : ℝ, HasDerivAt (fun y : ℝ => Phi y - y / 2) (phi t - 1 / 2) t := fun t =>
      (hD t).sub ((hasDerivAt_id t).div_const 2)
    have hanti : Antitone (fun y : ℝ => Phi y - y / 2) := by
      apply antitone_of_deriv_nonpos (fun t => (hk t).differentiableAt)
      intro t
      rw [(hk t).deriv]
      have := hphi t
      linarith
    have h := hanti hx
    simp only [hP0, zero_div, sub_zero] at h
    linarith

open MeasureTheory
/-- The distribution function `Phi` is `1/2 + 1/√(2π) ∫₀ˣ exp(-t²/2) dt`, lies strictly between
0 and 1, and tends to 1 at `+∞`. -/
theorem Phi_bounds :
    (∀ x : ℝ, Phi x = 1 / 2
        + 1 / Real.sqrt (2 * Real.pi) * ∫ t in (0:ℝ)..x, Real.exp (-(1 / 2) * t ^ 2))
    ∧ (∀ x : ℝ, 0 < Phi x) ∧ (∀ x : ℝ, Phi x < 1)
    ∧ Filter.Tendsto Phi Filter.atTop (nhds 1) := by
  obtain ⟨phi_eq, -⟩ := phi_facts
  obtain ⟨hD, hneg, hmono, hP0, -⟩ := Phi_facts
  have hs : 0 < Real.sqrt (2 * Real.pi) := Real.sqrt_pos.mpr (by positivity)
  have hc : Continuous (fun t : ℝ => Real.exp (-(1 / 2) * t ^ 2)) := by fun_prop
  have hJ : ∀ x : ℝ, HasDerivAt (fun y : ℝ => Phi y - (1 / 2
      + 1 / Real.sqrt (2 * Real.pi) * ∫ t in (0:ℝ)..y, Real.exp (-(1 / 2) * t ^ 2))) 0 x := by
    intro x
    have h := (hD x).sub ((((hc.integral_hasStrictDerivAt 0 x).hasDerivAt).const_mul
      (1 / Real.sqrt (2 * Real.pi))).const_add (1 / 2))
    convert h using 1
    rw [phi_eq]
    have e : -(x ^ 2) / 2 = -(1 / 2) * x ^ 2 := by ring
    rw [e]
    ring
  have hrep : ∀ x : ℝ, Phi x = 1 / 2
      + 1 / Real.sqrt (2 * Real.pi) * ∫ t in (0:ℝ)..x, Real.exp (-(1 / 2) * t ^ 2) := by
    intro x
    have h := is_const_of_deriv_eq_zero (fun t => (hJ t).differentiableAt)
      (fun t => (hJ t).deriv) x 0
    simp only [intervalIntegral.integral_same, mul_zero, add_zero, hP0, sub_self] at h
    linarith
  have hgauss : ∫ t in Set.Ioi (0:ℝ), Real.exp (-(1 / 2) * t ^ 2)
      = Real.sqrt (2 * Real.pi) / 2 := by
    rw [integral_gaussian_Ioi (1 / 2)]
    congr 2
    field_simp
    ring
  have hint : IntegrableOn (fun t : ℝ => Real.exp (-(1 / 2) * t ^ 2)) (Set.Ioi 0) :=
    (integrable_exp_neg_mul_sq (b := 1 / 2) (by norm_num)).integrableOn
  have hle : ∀ x : ℝ, 0 ≤ x → Phi x ≤ 1 := by
    intro x hx
    rw [hrep]
    have h1 : ∫ t in (0:ℝ)..x, Real.exp (-(1 / 2) * t ^ 2) ≤ Real.sqrt (2 * Real.pi) / 2 := by
      rw [intervalIntegral.integral_of_le hx, ← hgauss]
      apply setIntegral_mono_set hint
      · exact Filter.Eventually.of_forall (fun t => (Real.exp_pos _).le)
      · exact (Set.Ioc_subset_Ioi_self).eventuallyLE
    have h2 : 1 / Real.sqrt (2 * Real.pi) * ∫ t in (0:ℝ)..x, Real.exp (-(1 / 2) * t ^ 2)
        ≤ 1 / Real.sqrt (2 * Real.pi) * (Real.sqrt (2 * Real.pi) / 2) :=
      mul_le_mul_of_nonneg_left h1 (by positivity)
    have h3 : 1 / Real.sqrt (2 * Real.pi) * (Real.sqrt (2 * Real.pi) / 2) = 1 / 2 := by
      field_simp
    linarith
  have hlt : ∀ x : ℝ, Phi x < 1 := by
    intro x
    have h1 : Phi x < Phi (max x 0 + 1) := hmono _ _ (by
      have := le_max_left x 0; linarith)
    have h3 : Phi (max x 0 + 1) ≤ 1 := hle _ (by
      have := le_max_right x 0; linarith)
    linarith
  refine ⟨hrep, fun x => ?_, hlt, ?_⟩
  · have h := hlt (-x)
    rw [hneg] at h
    linarith
  · have h := (intervalIntegral_tendsto_integral_Ioi 0 hint Filter.tendsto_id).const_mul
      (1 / Real.sqrt (2 * Real.pi)) |>.const_add (1 / 2)
    rw [hgauss] at h
    have e : 1 / 2 + 1 / Real.sqrt (2 * Real.pi) * (Real.sqrt (2 * Real.pi) / 2) = (1:ℝ) := by
      field_simp
    rw [e] at h
    refine h.congr (fun x => ?_)
    rw [hrep x]
    rfl

/-! ## The Black-Scholes functions on finite arguments -/

/-- For spot > 0, strike > 0, time < expiry and vol > 0 the ten functions of `BlackScholes.h`
return the finite values of their closed forms. -/
theorem BS_fin {spot time strike expiry vol : ℝ} (rate : ℝ)
    (hs : 0 < spot) (hk : 0 < strike) (ht : time < expiry) (hv : 0 < vol) :
    BSCall (Dbl.fin spot) (Dbl.fin time) (Dbl.fin strike) (Dbl.fin expiry) (Dbl.fin vol)
        (Dbl.fin rate)
      = Dbl.fin (spot * Phi (d1R spot time strike expiry vol rate)
          - strike * Real.exp (-(rate / 100) * (expiry - time))
            * Phi (d2R spot time strike expiry vol rate))
    ∧ BSPut (Dbl.fin spot) (Dbl.fin time) (Dbl.fin strike) (Dbl.fin expiry) (Dbl.fin vol)
        (Dbl.fin rate)
      = Dbl.fin (-spot * Phi (-d1R spot time strike expiry vol rate)
          + strike * Real.exp (-(rate / 100) * (expiry - time))
            * Phi (-d2R spot time strike expiry vol rate))
    ∧ BSCall_Delta (Dbl.fin spot) (Dbl.fin time) (Dbl.fin strike) (Dbl.fin expiry) (Dbl.fin vol)
        (Dbl.fin rate) = Dbl.fin (Phi (d1R spot time strike expiry vol rate))
    ∧ BSPut_Delta (Dbl.fin spot) (Dbl.fin time) (Dbl.fin strike) (Dbl.fin expiry) (Dbl.fin vol)
        (Dbl.fin rate) = Dbl.fin (-Phi (-d1R spot time strike expiry vol rate))
    ∧ BSCall_Gamma (Dbl.fin spot) (Dbl.fin time) (Dbl.fin strike) (Dbl.fin expiry) (Dbl.fin vol)
        (Dbl.fin rate) = Dbl.fin (phi (d1R spot time strike expiry vol rate) / spot / (vol / 100)
          / Real.sqrt (expiry - time))
    ∧ BSPut_Gamma (Dbl.fin spot) (Dbl.fin time) (Dbl.fin strike) (Dbl.fin expiry) (Dbl.fin vol)
        (Dbl.fin rate) = Dbl.fin (phi (d1R spot time strike expiry vol rate) / spot / (vol / 100)
          / Real.sqrt (expiry - time))
    ∧ BSCall_Vega (Dbl.fin spot) (Dbl.fin time) (Dbl.fin strike) (Dbl.fin expiry) (Dbl.fin vol)
        (Dbl.fin rate) = Dbl.fin (spot * Real.sqrt (expiry - time)
          * phi (d1R spot time strike expiry vol rate) / 100)
    ∧ BSPut_Vega (Dbl.fin spot) (Dbl.fin time) (Dbl.fin strike) (Dbl.fin expiry) (Dbl.fin vol)
        (Dbl.fin rate) = Dbl.fin (spot * Real.sqrt (expiry - time)
          * phi (d1R spot time strike expiry vol rate) / 100)
    ∧ BSCall_Theta (Dbl.fin spot) (Dbl.fin time) (Dbl.fin strike) (Dbl.fin expiry) (Dbl.fin vol)
        (Dbl.fin rate) = Dbl.fin ((-spot * (vol / 100) * phi (d1R spot time strike expiry vol rate)
            / 2 / Real.sqrt (expiry - time)
          - rate / 100 * strike * Real.exp (-(rate / 100) * (expiry - time))
            * Phi (d2R spot time strike expiry vol rate)) / 365)
    ∧ BSPut_Theta (Dbl.fin spot) (Dbl.fin time) (Dbl.fin strike) (Dbl.fin expiry) (Dbl.fin vol)
        (Dbl.fin rate) = Dbl.fin ((-spot * (vol / 100) * phi (d1R spot time strike expiry vol rate)
            / 2 / Real.sqrt (expiry - time)
          + rate / 100 * strike * Real.exp (-(rate / 100) * (expiry - time))
            * Phi (-d2R spot time strike expiry vol rate)) / 365) := by
  obtain ⟨radd, rsub, rmul, rneg, rdiv, rdiv2, rdiv100, rexp, rlog, rsqrt, -, rpow, -, -, -⟩ :=
    Dbl.fin_rules
  have h1 : strike ≠ 0 := hk.ne.symm
  have h2 : 0 < spot / strike := div_pos hs hk
  have h3 : vol / 100 ≠ 0 := by positivity
  have h4 : (0:ℝ) ≤ expiry - time := by linarith
  have h5 : Real.sqrt (expiry - time) ≠ 0 := (Real.sqrt_pos.mpr (by linarith)).ne.symm
  have h6 : (365 : ℝ) ≠ 0 := by norm_num
  have h7 : (1 : ℝ) * Real.sqrt 2 ≠ 0 := by positivity
  have h8 : (1 : ℝ) * Real.sqrt (2 * Real.pi) ≠ 0 := by positivity
  have h9 : (2 : ℝ) * 1 * 1 ≠ 0 := by norm_num
  have herf : ∀ a : ℝ, Dbl.erf (Dbl.fin a) = Dbl.fin (erfReal a) := fun _ => rfl
  have hcdf : ∀ x : ℝ,
      NormalDistribution.cdf ⟨Dbl.fin 0, Dbl.fin 1⟩ (Dbl.fin x) = Dbl.fin (Phi x) := by
    intro x
    delta NormalDistribution.cdf Phi
    simp only [rsqrt 2 (by norm_num), rmul, rsub, rdiv _ _ h7, herf, radd]
  have hpdf : ∀ x : ℝ,
      NormalDistribution.pdf ⟨Dbl.fin 0, Dbl.fin 1⟩ (Dbl.fin x) = Dbl.fin (phi x) := by
    intro x
    delta NormalDistribution.pdf phi M_PI
    simp only [rmul, rsqrt (2 * Real.pi) (by positivity), rsub, rdiv _ _ h8, rdiv _ _ h9, rneg,
      rexp]
  have hd1 : (Dbl.log (Dbl.fin spot / Dbl.fin strike)
      + (Dbl.fin rate / Dbl.fin 100 + Dbl.pow (Dbl.fin vol / Dbl.fin 100) 2 / Dbl.fin 2)
        * (Dbl.fin expiry - Dbl.fin time)) / (Dbl.fin vol / Dbl.fin 100)
      / Dbl.sqrt (Dbl.fin expiry - Dbl.fin time)
      = Dbl.fin (d1R spot time strike expiry vol rate) := by
    delta d1R
    simp only [rdiv _ _ h1, rlog _ h2, rdiv100, rpow, rdiv2, radd, rsub, rmul, rdiv _ _ h3,
      rsqrt _ h4, rdiv _ _ h5]
  have hd2 : (Dbl.log (Dbl.fin spot / Dbl.fin strike)
      + (Dbl.fin rate / Dbl.fin 100 - Dbl.pow (Dbl.fin vol / Dbl.fin 100) 2 / Dbl.fin 2)
        * (Dbl.fin expiry - Dbl.fin time)) / (Dbl.fin vol / Dbl.fin 100)
      / Dbl.sqrt (Dbl.fin expiry - Dbl.fin time)
      = Dbl.fin (d2R spot time strike expiry vol rate) := by
    delta d2R
    simp only [rdiv _ _ h1, rlog _ h2, rdiv100, rpow, rdiv2, radd, rsub, rmul, rdiv _ _ h3,
      rsqrt _ h4, rdiv _ _ h5]
  refine ⟨?_, ?_, ?_, ?_, ?_, ?_, ?_, ?_, ?_, ?_⟩
  · delta BSCall
    simp only [hd1, hd2]
    simp only [hcdf, rdiv100, rneg, rsub, rmul, rexp]
  · delta BSPut
    simp only [hd1, hd2]
    simp only [hcdf, rdiv100, rneg, rsub, rmul, rexp, radd]
  · delta BSCall_Delta
    simp only [hd1]
    simp only [hcdf]
  · delta BSPut_Delta
    simp only [hd1]
    simp only [hcdf, rneg]
  · delta BSCall_Gamma
    simp only [hd1]
    simp only [hpdf, rdiv100, rsub, rdiv _ _ hs.ne.symm, rdiv _ _ h3, rsqrt _ h4, rdiv _ _ h5]
  · delta BSPut_Gamma
    simp only [hd1]
    simp only [hpdf, rdiv100, rsub, rdiv _ _ hs.ne.symm, rdiv _ _ h3, rsqrt _ h4, rdiv _ _ h5]
  · delta BSCall_Vega
    simp only [hd1]
    simp only [hpdf, rdiv100, rsub, rsqrt _ h4, rmul]
  · delta BSPut_Vega
    simp only [hd1]
    simp only [hpdf, rdiv100, rsub, rsqrt _ h4, rmul]
  · delta BSCall_Theta
    simp only [hd1, hd2]
    simp only [hpdf, hcdf, rdiv100, rsub, rsqrt _ h4, rmul, rneg, rdiv2, rdiv _ _ h5, rexp,
      rdiv _ _ h6]
  · delta BSPut_Theta
    simp only [hd1, hd2]
    simp only [hpdf, hcdf, rdiv100, rsub, rsqrt _ h4, rmul, rneg, rdiv2, rdiv _ _ h5, rexp,
      rdiv _ _ h6, radd]

/-- The quantities `d1` and `d2`: the identity `S φ(d1) = K e^{-rτ} φ(d2)` and their derivatives
in the spot, in the volatility (in percent) and in the valuation time. -/
theorem d1R_facts {spot time strike expiry vol : ℝ} (rate : ℝ)
    (hs : 0 < spot) (hk : 0 < strike) (ht : time < expiry) (hv : 0 < vol) :
    spot * phi (d1R spot time strike expiry vol rate)
        = strike * Real.exp (-(rate / 100) * (expiry - time))
          * phi (d2R spot time strike expiry vol rate)
    ∧ (HasDerivAt (fun s => d1R s time strike expiry vol rate)
          (1 / spot / (vol / 100) / Real.sqrt (expiry - time)) spot
      ∧ HasDerivAt (fun s => d2R s time strike expiry vol rate)
          (1 / spot / (vol / 100) / Real.sqrt (expiry - time)) spot)
    ∧ (∃ a : ℝ, HasDerivAt (fun v => d1R spot time strike expiry v rate) a vol
      ∧ HasDerivAt (fun v => d2R spot time strike expiry v rate)
          (a - Real.sqrt (expiry - time) / 100) vol)
    ∧ (∃ a : ℝ, HasDerivAt (fun t => d1R spot t strike expiry vol rate) a time
      ∧ HasDerivAt (fun t => d2R spot t strike expiry vol rate)
          (a + vol / 100 / (2 * Real.sqrt (expiry - time))) time) := by
  have hτ : 0 < expiry - time := by linarith
  have hw : 0 < Real.sqrt (expiry - time) := Real.sqrt_pos.mpr hτ
  have hw2 : Real.sqrt (expiry - time) * Real.sqrt (expiry - time) = expiry - time :=
    Real.mul_self_sqrt hτ.le
  have hσ : vol / 100 ≠ 0 := by positivity
  have hσ0 : 0 < vol / 100 := by positivity
  have hL : Real.exp (Real.log (spot / strike)) = spot / strike := Real.exp_log (div_pos hs hk)
  refine ⟨?_, ⟨?_, ?_⟩, ⟨(-(Real.log (spot / strike) + rate / 100 * (expiry - time))
          / ((vol / 100) ^ 2 * Real.sqrt (expiry - time))
        + Real.sqrt (expiry - time) / 2) / 100, ?_, ?_⟩,
    ⟨(Real.log (spot / strike) - (rate / 100 + (vol / 100) ^ 2 / 2) * (expiry - time))
        / (2 * (vol / 100) * (expiry - time) * Real.sqrt (expiry - time)), ?_, ?_⟩⟩
  · rw [phi_facts.1, phi_facts.1]
    have e : -(d2R spot time strike expiry vol rate ^ 2) / 2
        = -(d1R spot time strike expiry vol rate ^ 2) / 2
          + (Real.log (spot / strike) + rate / 100 * (expiry - time)) := by
      delta d1R d2R
      generalize Real.log (spot / strike) = L
      generalize hwd : Real.sqrt (expiry - time) = w at hw hw2
      rw [← hw2]
      field_simp
      ring
    rw [e, Real.exp_add, Real.exp_add, hL, neg_mul, Real.exp_neg]
    have hE : 0 < Real.exp (rate / 100 * (expiry - time)) := Real.exp_pos _
    field_simp
    ring
  · have hl : HasDerivAt (fun s : ℝ => Real.log (s / strike)) (1 / spot) spot := by
      have h := ((hasDerivAt_id spot).div_const strike).log (div_pos hs hk).ne.symm
      convert h using 1
      simp only [id_eq]
      field_simp
    exact (((hl.add_const _).div_const _).div_const _)
  · have hl : HasDerivAt (fun s : ℝ => Real.log (s / strike)) (1 / spot) spot := by
      have h := ((hasDerivAt_id spot).div_const strike).log (div_pos hs hk).ne.symm
      convert h using 1
      simp only [id_eq]
      field_simp
    exact (((hl.add_const _).div_const _).div_const _)
  · have hv100 : HasDerivAt (fun v : ℝ => v / 100) (1 / 100) vol :=
      (hasDerivAt_id vol).div_const 100
    have h := ((((((hv100.pow 2).div_const 2).const_add (rate / 100)).mul_const
      (expiry - time)).const_add (Real.log (spot / strike))).div hv100 hσ).div_const
      (Real.sqrt (expiry - time))
    convert h using 1
    generalize Real.log (spot / strike) = L
    generalize hwd : Real.sqrt (expiry - time) = w at hw hw2
    rw [← hw2]
    norm_num
    field_simp
    ring
  · have hv100 : HasDerivAt (fun v : ℝ => v / 100) (1 / 100) vol :=
      (hasDerivAt_id vol).div_const 100
    have h := ((((((hv100.pow 2).div_const 2).const_sub (rate / 100)).mul_const
      (expiry - time)).const_add (Real.log (spot / strike))).div hv100 hσ).div_const
      (Real.sqrt (expiry - time))
    convert h using 1
    generalize Real.log (spot / strike) = L
    generalize hwd : Real.sqrt (expiry - time) = w at hw hw2
    rw [← hw2]
    norm_num
    field_simp
    ring
  · have hsub : HasDerivAt (fun t : ℝ => expiry - t) (-1) time := by
      simpa using (hasDerivAt_id time).const_sub expiry
    have hsq := hsub.sqrt hτ.ne.symm
    have h := (((hsub.const_mul (rate / 100 + (vol / 100) ^ 2 / 2)).const_add
      (Real.log (spot / strike))).div_const (vol / 100)).div hsq hw.ne.symm
    convert h using 1
    generalize Real.log (spot / strike) = L
    generalize hwd : Real.sqrt (expiry - time) = w at hw hw2
    rw [← hw2]
    field_simp
    ring
  · have hsub : HasDerivAt (fun t : ℝ => expiry - t) (-1) time := by
      simpa using (hasDerivAt_id time).const_sub expiry
    have hsq := hsub.sqrt hτ.ne.symm
    have h := (((hsub.const_mul (rate / 100 - (vol / 100) ^ 2 / 2)).const_add
      (Real.log (spot / strike))).div_const (vol / 100)).div hsq hw.ne.symm
    convert h using 1
    generalize Real.log (spot / strike) = L
    generalize hwd : Real.sqrt (expiry - time) = w at hw hw2
    rw [← hw2]
    field_simp
    ring

/-! ## The solver: validation and special values -/

/-- The bound check of `implied_vol`: the outcome is `invalid_argument` exactly when the guard
holds, for all doubles and every iteration budget; on finite arguments the guard is an inequality
on the reals. -/
theorem implied_vol_guard :
    (∀ (fuel : ℕ) (price spot strike expiry rate : Dbl),
      implied_vol fuel price spot strike expiry rate = Outcome.invalid_argument
        ↔ (spot - Dbl.exp (-(rate / Dbl.fin 100) * expiry) * strike ≥ price ∨ price ≥ spot))
    ∧ (∀ (fuel : ℕ) (price spot strike expiry rate : ℝ),
      implied_vol fuel (Dbl.fin price) (Dbl.fin spot) (Dbl.fin strike) (Dbl.fin expiry)
          (Dbl.fin rate) = Outcome.invalid_argument
        ↔ (spot - Real.exp (-(rate / 100) * expiry) * strike ≥ price ∨ price ≥ spot)) := by
  have key : ∀ (fuel : ℕ) (price spot strike expiry rate : Dbl),
      implied_vol fuel price spot strike expiry rate = Outcome.invalid_argument
        ↔ (spot - Dbl.exp (-(rate / Dbl.fin 100) * expiry) * strike ≥ price ∨ price ≥ spot) := by
    intro fuel price spot strike expiry rate
    delta implied_vol
    dsimp only
    by_cases hg : spot - Dbl.exp (-(rate / Dbl.fin 100) * expiry) * strike ≥ price ∨ price ≥ spot
    · rw [if_pos hg]
      exact ⟨fun _ => hg, fun _ => rfl⟩
    · rw [if_neg hg]
      refine ⟨fun h => ?_, fun h => absurd h hg⟩
      exfalso
      revert h
      split_ifs <;>
        (generalize ImpliedVol.newton_loop _ _ _ _ _ = o
         cases o <;> exact fun h => Outcome.noConfusion h)
  refine ⟨key, ?_⟩
  intro fuel price spot strike expiry rate
  obtain ⟨-, rsub, rmul, rneg, -, -, rdiv100, rexp, -, -, -, -, -, rle, -⟩ := Dbl.fin_rules
  rw [key, rdiv100, rneg, rmul, rexp, rmul, rsub]
  exact or_congr (rle _ _) (rle _ _)

/-- The solver at the money forward: spot = strike = 100, expiry = 1, rate = 0 and the price of
the 20 % call give NaN, whatever the iteration budget. -/
theorem implied_vol_atm_nan (fuel : ℕ) :
    implied_vol fuel
        (BSCall (Dbl.fin 100) (Dbl.fin 0) (Dbl.fin 100) (Dbl.fin 1) (Dbl.fin 20) (Dbl.fin 0))
        (Dbl.fin 100) (Dbl.fin 100) (Dbl.fin 1) (Dbl.fin 0)
      = Outcome.returned Dbl.nan := by
  obtain ⟨radd, rsub, rmul, rneg, rdiv, rdiv2, rdiv100, rexp, rlog, rsqrt, rabs, -, -, rle, -⟩ :=
    Dbl.fin_rules
  obtain ⟨nadd, addn, nsub, subn, nmul, muln, ndiv, divn, -, -, nlog, nsqrt, nabs, zz, nle, -,
    -, ltn, -⟩ := Dbl.nan_rules
  obtain ⟨-, hneg, hmono, -, hup⟩ := Phi_facts
  have herf : Dbl.erf Dbl.nan = Dbl.nan := rfl
  rw [(BS_fin 0 (by norm_num : (0:ℝ) < 100) (by norm_num : (0:ℝ) < 100)
    (by norm_num : (0:ℝ) < 1) (by norm_num : (0:ℝ) < 20)).1]
  have hd1 : d1R 100 0 100 1 20 0 = 1 / 10 := by
    delta d1R; norm_num
  have hd2 : d2R 100 0 100 1 20 0 = -(1 / 10) := by
    delta d2R; norm_num
  rw [hd1, hd2]
  have hm : Phi (-(1 / 10)) < Phi (1 / 10) := hmono _ _ (by norm_num)
  have h1 := hup (1 / 10) (by norm_num)
  have h2 := hneg (1 / 10)
  generalize hc : 100 * Phi (1 / 10) - 100 * Real.exp (-(0 / 100) * (1 - 0)) * Phi (-(1 / 10)) = c
  have hc0 : 0 < c := by rw [← hc]; norm_num; linarith
  have hc1 : c < 100 := by rw [← hc]; norm_num; linarith
  have hacc : ¬ (Dbl.fin 100 - Dbl.exp (-(Dbl.fin 0 / Dbl.fin 100) * Dbl.fin 1) * Dbl.fin 100
      ≥ Dbl.fin c ∨ Dbl.fin c ≥ Dbl.fin 100) := by
    rw [rdiv100, rneg, rmul, rexp, rmul, rsub]
    intro h
    rcases h with h | h
    · have h3 := (rle _ _).mp h
      norm_num at h3
      linarith
    · have h3 := (rle _ _).mp h
      linarith
  have hx : Dbl.log (Dbl.exp (Dbl.fin 0 / Dbl.fin 100 * Dbl.fin 1) * Dbl.fin 100 / Dbl.fin 100)
      = Dbl.fin 0 := by
    simp only [rdiv100, rmul, rexp]
    norm_num
    rw [rlog 1 one_pos, Real.log_one]
  have hsc : Dbl.sqrt (Dbl.fin 2 * Dbl.abs (Dbl.fin 0)) = Dbl.fin 0 := by
    rw [rabs, rmul, rsqrt _ (by norm_num)]
    norm_num
  have hloop : ∀ (step : Dbl → Dbl) (tol seed new : Dbl), seed = Dbl.nan → new = Dbl.nan →
      ImpliedVol.newton_loop step tol fuel seed new = some Dbl.nan := by
    intro step tol seed new h1 h2
    subst h1 h2
    cases fuel <;> exact if_neg (ltn _)
  have hge : ∀ a : Dbl, ¬ a ≥ Dbl.nan := fun a => nle a
  have hb : ImpliedVol.F (Dbl.fin 1) (Dbl.fin 0) ⟨Dbl.fin 0, Dbl.fin 1⟩ (Dbl.fin 0)
      = Dbl.nan := by
    delta ImpliedVol.F NormalDistribution.cdf
    simp only [zz, nadd, addn, muln, nmul, nsub, subn, ndiv, divn, herf]
  have hseed : ∀ a b c d : Dbl, Dbl.sqrt (a / (b - Dbl.fin 4 * Dbl.log (c / (Dbl.nan - d))))
      = Dbl.nan := by
    intro a b c d
    rw [nsub, divn, nlog, muln, subn, divn, nsqrt]
  delta implied_vol
  dsimp only
  rw [if_neg hacc, hx, hsc, hb, if_neg (hge _)]
  rw [hloop]
  · rfl
  · exact hseed _ _ _ _
  · rw [hseed, nsub]

/-! ## Results -/

/-- C1 (the code departs from the claim): the round trip fails for a call struck at the money
forward.  With spot = strike = 100, expiry = 1, rate = 0 and price = BSCall(100, 0, 100, 1, 20, 0),
the solver accepts the price, finds `x = 0` and `sigma_c = 0`, evaluates `F(sigma_c)` through the
quotient `0/0`, and returns NaN after no pass of its loop, whatever the iteration budget: it does
not return a value within 1e-4 relative error of 20. -/
theorem implied_vol_at_the_money_forward (fuel : ℕ) :
    implied_vol fuel
        (BSCall (Dbl.fin 100) (Dbl.fin 0) (Dbl.fin 100) (Dbl.fin 1) (Dbl.fin 20) (Dbl.fin 0))
        (Dbl.fin 100) (Dbl.fin 100) (Dbl.fin 1) (Dbl.fin 0)
      = Outcome.returned Dbl.nan :=
  implied_vol_atm_nan fuel

/-- C2: boundary rejection.  For all doubles, and whatever the iteration budget, `implied_vol`
throws `invalid_argument` if and only if `spot - exp(-(rate/100)*expiry)*strike >= price` or
`price >= spot` (comparisons of doubles); on finite arguments this is the same condition on the
reals.  The rate is divided by 100 first and the outcome of a rejected input does not depend on
the loop. -/
theorem implied_vol_invalid_iff :
    (∀ (fuel : ℕ) (price spot strike expiry rate : Dbl),
      implied_vol fuel price spot strike expiry rate = Outcome.invalid_argument
        ↔ (spot - Dbl.exp (-(rate / Dbl.fin 100) * expiry) * strike ≥ price ∨ price ≥ spot))
    ∧ (∀ (fuel : ℕ) (price spot strike expiry rate : ℝ),
      implied_vol fuel (Dbl.fin price) (Dbl.fin spot) (Dbl.fin strike) (Dbl.fin expiry)
          (Dbl.fin rate) = Outcome.invalid_argument
        ↔ (spot - Real.exp (-(rate / 100) * expiry) * strike ≥ price ∨ price ≥ spot)) :=
  implied_vol_guard

/-- C3 fails as stated: the input price = -5, spot = 1, strike = 100, expiry = 1, rate = 0 is
accepted by `implied_vol`, yet it violates `max(spot - exp(-(rate/100)*expiry)*strike, 0) < price
< spot`, and its price is not positive. -/
theorem accepted_price_not_positive :
    implied_vol 0 (Dbl.fin (-5)) (Dbl.fin 1) (Dbl.fin 100) (Dbl.fin 1) (Dbl.fin 0)
        ≠ Outcome.invalid_argument
      ∧ ¬ (max (1 - Real.exp (-(0 / 100) * 1) * 100) 0 < (-5 : ℝ) ∧ (-5 : ℝ) < 1)
      ∧ ¬ (0 < (-5 : ℝ)) := by
  refine ⟨fun h => ?_, ?_, by norm_num⟩
  · have h2 := (implied_vol_guard.2 0 (-5) 1 100 1 0).mp h
    norm_num at h2
  · intro h
    have := lt_of_le_of_lt (le_max_right _ _) h.1
    norm_num at this

/-- C3 (amended): for all doubles and every iteration budget, an input that `implied_vol` accepts
fails both comparisons of its guard: with `b` the double computed for
`spot - exp(-(rate/100)*expiry)*strike`, neither `b >= price` nor `price >= spot` holds.  When
`b` and `price` are not NaN this is `b < price < spot` (as doubles, infinities included), and
when moreover `0 <= b` the price is positive; for finite `b`, `price`, `spot` with `0 <= b` this
is the bound `max(b, 0) < price < spot`.  The guard has no comparison with `0`. -/
theorem accepted_bounds (fuel : ℕ) (price spot strike expiry rate : Dbl)
    (h : implied_vol fuel price spot strike expiry rate ≠ Outcome.invalid_argument) :
    (¬ (spot - Dbl.exp (-(rate / Dbl.fin 100) * expiry) * strike ≥ price)
        ∧ ¬ (price ≥ spot))
      ∧ (spot - Dbl.exp (-(rate / Dbl.fin 100) * expiry) * strike ≠ Dbl.nan →
          price ≠ Dbl.nan →
          (spot - Dbl.exp (-(rate / Dbl.fin 100) * expiry) * strike < price
              ∧ price < spot)
            ∧ (Dbl.fin 0 ≤ spot - Dbl.exp (-(rate / Dbl.fin 100) * expiry) * strike →
                Dbl.fin 0 < price))
      ∧ (∀ b p s : ℝ,
          spot - Dbl.exp (-(rate / Dbl.fin 100) * expiry) * strike = Dbl.fin b →
          price = Dbl.fin p → spot = Dbl.fin s →
          (b < p ∧ p < s) ∧ (0 ≤ b → max b 0 < p ∧ p < s ∧ 0 < p)) := by
  obtain ⟨-, -, nsub, -, -, -, -, -, -, -, -, -, -, -, -, -, -, -, -⟩ := Dbl.nan_rules
  have h2 := mt (implied_vol_guard.1 fuel price spot strike expiry rate).mpr h
  rw [not_or] at h2
  -- the order of doubles is total away from NaN
  have tot : ∀ a b : Dbl, a ≠ Dbl.nan → b ≠ Dbl.nan → ¬ (a ≥ b) → a < b := by
    intro a b ha hb hab
    cases a <;> cases b <;> first
      | exact absurd rfl ha
      | exact absurd rfl hb
      | exact True.intro
      | exact absurd True.intro hab
      | exact not_le.mp (show ¬ ((_ : ℝ) ≤ _) from hab)
  have trans : ∀ b p : Dbl, Dbl.fin 0 ≤ b → b < p → Dbl.fin 0 < p := by
    intro b p
    cases b <;> cases p <;> first
      | exact fun h1 h2 => lt_of_le_of_lt (show (0 : ℝ) ≤ _ from h1) h2
      | exact fun _ _ => True.intro
      | exact fun h1 _ => False.elim h1
      | exact fun _ h2 => False.elim h2
  refine ⟨h2, fun hb hp => ?_, fun b p s eb ep es => ?_⟩
  · have hs : spot ≠ Dbl.nan := by
      intro e
      rw [e, nsub] at hb
      exact hb rfl
    have h3 := tot _ _ hb hp h2.1
    exact ⟨⟨h3, tot _ _ hp hs h2.2⟩, fun h0 => trans _ _ h0 h3⟩
  · rw [eb, ep] at h2
    rw [es] at h2
    have h3 : b < p := not_le.mp (show ¬ (p ≤ b) from h2.1)
    have h4 : p < s := not_le.mp (show ¬ (s ≤ p) from h2.2)
    exact ⟨⟨h3, h4⟩, fun h0 => ⟨max_lt h3 (lt_of_le_of_lt h0 h3), h4, lt_of_le_of_lt h0 h3⟩⟩

/-- Witness of C3 (amended): the accepted input price = 10, spot = strike = 100, expiry = 1,
rate = 0. -/
theorem accepted_bounds_witness :
    implied_vol 0 (Dbl.fin 10) (Dbl.fin 100) (Dbl.fin 100) (Dbl.fin 1) (Dbl.fin 0)
        ≠ Outcome.invalid_argument
      ∧ ((¬ (Dbl.fin 100 - Dbl.exp (-(Dbl.fin 0 / Dbl.fin 100) * Dbl.fin 1) * Dbl.fin 100 ≥ Dbl.fin 10)
        ∧ ¬ (Dbl.fin 10 ≥ Dbl.fin 100))
      ∧ (Dbl.fin 100 - Dbl.exp (-(Dbl.fin 0 / Dbl.fin 100) * Dbl.fin 1) * Dbl.fin 100 ≠ Dbl.nan →
          Dbl.fin 10 ≠ Dbl.nan →
          (Dbl.fin 100 - Dbl.exp (-(Dbl.fin 0 / Dbl.fin 100) * Dbl.fin 1) * Dbl.fin 100 < Dbl.fin 10
              ∧ Dbl.fin 10 < Dbl.fin 100)
            ∧ (Dbl.fin 0 ≤ Dbl.fin 100 - Dbl.exp (-(Dbl.fin 0 / Dbl.fin 100) * Dbl.fin 1) * Dbl.fin 100 →
                Dbl.fin 0 < Dbl.fin 10))
      ∧ (∀ b p s : ℝ,
          Dbl.fin 100 - Dbl.exp (-(Dbl.fin 0 / Dbl.fin 100) * Dbl.fin 1) * Dbl.fin 100 = Dbl.fin b →
          Dbl.fin 10 = Dbl.fin p → Dbl.fin 100 = Dbl.fin s →
          (b < p ∧ p < s) ∧ (0 ≤ b → max b 0 < p ∧ p < s ∧ 0 < p))) := by
  have hacc : implied_vol 0 (Dbl.fin 10) (Dbl.fin 100) (Dbl.fin 100) (Dbl.fin 1) (Dbl.fin 0)
      ≠ Outcome.invalid_argument := by
    intro h
    have h2 := (implied_vol_guard.2 0 10 100 100 1 0).mp h
    norm_num at h2
  exact ⟨hacc, accepted_bounds 0 _ _ _ _ _ hacc⟩

/-- C4: put-call parity.  For spot > 0, strike > 0, time < expiry, vol > 0 and every rate,
`BSCall - BSPut` is the finite value `spot - strike * exp(-(rate/100) * (expiry - time))`,
exactly. -/
theorem put_call_parity (spot time strike expiry vol rate : ℝ)
    (hs : 0 < spot) (hk : 0 < strike) (ht : time < expiry) (hv : 0 < vol) :
    BSCall (Dbl.fin spot) (Dbl.fin time) (Dbl.fin strike) (Dbl.fin expiry)
        (Dbl.fin vol) (Dbl.fin rate)
      - BSPut (Dbl.fin spot) (Dbl.fin time) (Dbl.fin strike) (Dbl.fin expiry)
        (Dbl.fin vol) (Dbl.fin rate)
      = Dbl.fin (spot - strike * Real.exp (-(rate / 100) * (expiry - time))) := by
  obtain ⟨hc, hp, -⟩ := BS_fin rate hs hk ht hv
  rw [hc, hp, Dbl.fin_rules.2.1, Phi_facts.2.1, Phi_facts.2.1]
  congr 1
  ring

/-- Witness of C4 at spot = 100, time = 0, strike = 100, expiry = 1, vol = 20, rate = 5. -/
theorem put_call_parity_witness :
    BSCall (Dbl.fin 100) (Dbl.fin 0) (Dbl.fin 100) (Dbl.fin 1) (Dbl.fin 20) (Dbl.fin 5)
      - BSPut (Dbl.fin 100) (Dbl.fin 0) (Dbl.fin 100) (Dbl.fin 1) (Dbl.fin 20) (Dbl.fin 5)
      = Dbl.fin (100 - 100 * Real.exp (-(5 / 100) * (1 - 0))) :=
  put_call_parity 100 0 100 1 20 5 (by norm_num) (by norm_num) (by norm_num) (by norm_num)

/-- C7: delta is the spot-derivative of the price.  For spot > 0, strike > 0, time < expiry,
vol > 0 and every rate, `BSCall_Delta` is a finite value `d`, the function
`s ↦ BSCall(s, time, strike, expiry, vol, rate)` has derivative `d` at `spot`, and likewise
`BSPut` has derivative `BSPut_Delta`. -/
theorem delta_is_spot_derivative (spot time strike expiry vol rate : ℝ)
    (hs : 0 < spot) (hk : 0 < strike) (ht : time < expiry) (hv : 0 < vol) :
    (∃ d : ℝ, BSCall_Delta (Dbl.fin spot) (Dbl.fin time) (Dbl.fin strike) (Dbl.fin expiry)
        (Dbl.fin vol) (Dbl.fin rate) = Dbl.fin d
        ∧ HasDerivAt (fun s : ℝ => (BSCall (Dbl.fin s) (Dbl.fin time) (Dbl.fin strike)
            (Dbl.fin expiry) (Dbl.fin vol) (Dbl.fin rate)).toReal) d spot)
    ∧ (∃ d : ℝ, BSPut_Delta (Dbl.fin spot) (Dbl.fin time) (Dbl.fin strike) (Dbl.fin expiry)
        (Dbl.fin vol) (Dbl.fin rate) = Dbl.fin d
        ∧ HasDerivAt (fun s : ℝ => (BSPut (Dbl.fin s) (Dbl.fin time) (Dbl.fin strike)
            (Dbl.fin expiry) (Dbl.fin vol) (Dbl.fin rate)).toReal) d spot) := by
  obtain ⟨hPhi, hneg, -⟩ := Phi_facts
  obtain ⟨key, ⟨hd1, hd2⟩, -⟩ := d1R_facts rate hs hk ht hv
  have hcall : HasDerivAt (fun s => s * Phi (d1R s time strike expiry vol rate)
        - strike * Real.exp (-(rate / 100) * (expiry - time))
          * Phi (d2R s time strike expiry vol rate))
      (Phi (d1R spot time strike expiry vol rate)) spot := by
    have h1 := (hPhi (d1R spot time strike expiry vol rate)).comp spot hd1
    have h2 := (hPhi (d2R spot time strike expiry vol rate)).comp spot hd2
    have h := ((hasDerivAt_id spot).mul h1).sub
      (h2.const_mul (strike * Real.exp (-(rate / 100) * (expiry - time))))
    convert h using 1
    simp only [id_eq, Function.comp_apply]
    linear_combination (-(1 / spot / (vol / 100) / Real.sqrt (expiry - time))) * key
  have hput : HasDerivAt (fun s => -s * Phi (-d1R s time strike expiry vol rate)
        + strike * Real.exp (-(rate / 100) * (expiry - time))
          * Phi (-d2R s time strike expiry vol rate))
      (-Phi (-d1R spot time strike expiry vol rate)) spot := by
    have h := (hcall.sub (hasDerivAt_id spot)).add_const
      (strike * Real.exp (-(rate / 100) * (expiry - time)))
    convert h using 1
    · funext s
      simp only [hneg, id_eq]
      ring
    · rw [hneg]; ring
  constructor
  · refine ⟨_, (BS_fin rate hs hk ht hv).2.2.1, ?_⟩
    refine hcall.congr_of_eventuallyEq ?_
    filter_upwards [lt_mem_nhds hs] with s h
    rw [(BS_fin rate h hk ht hv).1]
    rfl
  · refine ⟨_, (BS_fin rate hs hk ht hv).2.2.2.1, ?_⟩
    refine hput.congr_of_eventuallyEq ?_
    filter_upwards [lt_mem_nhds hs] with s h
    rw [(BS_fin rate h hk ht hv).2.1]
    rfl

/-- Witness of C7 at spot = 100, time = 0, strike = 100, expiry = 1, vol = 20, rate = 5. -/
theorem delta_is_spot_derivative_witness :
    (∃ d : ℝ, BSCall_Delta (Dbl.fin 100) (Dbl.fin 0) (Dbl.fin 100) (Dbl.fin 1) (Dbl.fin 20) (Dbl.fin 5) = Dbl.fin d
        ∧ HasDerivAt (fun s : ℝ => (BSCall (Dbl.fin s) (Dbl.fin 0) (Dbl.fin 100)
            (Dbl.fin 1) (Dbl.fin 20) (Dbl.fin 5)).toReal) d 100)
    ∧ (∃ d : ℝ, BSPut_Delta (Dbl.fin 100) (Dbl.fin 0) (Dbl.fin 100) (Dbl.fin 1) (Dbl.fin 20) (Dbl.fin 5) = Dbl.fin d
        ∧ HasDerivAt (fun s : ℝ => (BSPut (Dbl.fin s) (Dbl.fin 0) (Dbl.fin 100)
            (Dbl.fin 1) (Dbl.fin 20) (Dbl.fin 5)).toReal) d 100) :=
  delta_is_spot_derivative 100 0 100 1 20 5 (by norm_num) (by norm_num) (by norm_num) (by norm_num)

/-- C8: vega is the price change per percentage point of volatility.  For spot > 0, strike > 0,
time < expiry, vol > 0 and every rate, `BSCall_Vega` is a finite value `d` and the function
`v ↦ BSCall(spot, time, strike, expiry, v, rate)`, with `v` in percent, has derivative exactly
`d` at `vol`. -/
theorem vega_is_vol_derivative (spot time strike expiry vol rate : ℝ)
    (hs : 0 < spot) (hk : 0 < strike) (ht : time < expiry) (hv : 0 < vol) :
    ∃ d : ℝ, BSCall_Vega (Dbl.fin spot) (Dbl.fin time) (Dbl.fin strike) (Dbl.fin expiry)
        (Dbl.fin vol) (Dbl.fin rate) = Dbl.fin d
        ∧ HasDerivAt (fun v : ℝ => (BSCall (Dbl.fin spot) (Dbl.fin time) (Dbl.fin strike)
            (Dbl.fin expiry) (Dbl.fin v) (Dbl.fin rate)).toReal) d vol := by
  obtain ⟨hPhi, -⟩ := Phi_facts
  obtain ⟨key, -, ⟨a, hd1, hd2⟩, -⟩ := d1R_facts rate hs hk ht hv
  have hcall : HasDerivAt (fun v => spot * Phi (d1R spot time strike expiry v rate)
        - strike * Real.exp (-(rate / 100) * (expiry - time))
          * Phi (d2R spot time strike expiry v rate))
      (spot * Real.sqrt (expiry - time) * phi (d1R spot time strike expiry vol rate) / 100)
      vol := by
    have h1 := (hPhi (d1R spot time strike expiry vol rate)).comp vol hd1
    have h2 := (hPhi (d2R spot time strike expiry vol rate)).comp vol hd2
    have h := (h1.const_mul spot).sub
      (h2.const_mul (strike * Real.exp (-(rate / 100) * (expiry - time))))
    convert h using 1
    linear_combination (-(a - Real.sqrt (expiry - time) / 100)) * key
  refine ⟨_, (BS_fin rate hs hk ht hv).2.2.2.2.2.2.1, ?_⟩
  refine hcall.congr_of_eventuallyEq ?_
  filter_upwards [lt_mem_nhds hv] with v h
  rw [(BS_fin rate hs hk ht h).1]
  rfl

/-- Witness of C8 at spot = 100, time = 0, strike = 100, expiry = 1, vol = 20, rate = 5. -/
theorem vega_is_vol_derivative_witness :
    ∃ d : ℝ, BSCall_Vega (Dbl.fin 100) (Dbl.fin 0) (Dbl.fin 100) (Dbl.fin 1) (Dbl.fin 20) (Dbl.fin 5) = Dbl.fin d
        ∧ HasDerivAt (fun v : ℝ => (BSCall (Dbl.fin 100) (Dbl.fin 0) (Dbl.fin 100)
            (Dbl.fin 1) (Dbl.fin v) (Dbl.fin 5)).toReal) d 20 :=
  vega_is_vol_derivative 100 0 100 1 20 5 (by norm_num) (by norm_num) (by norm_num) (by norm_num)

/-- C9: theta is the one-day time decay.  For spot > 0, strike > 0, time < expiry, vol > 0 and
every rate, `BSCall_Theta` is a finite value `th`, the function
`t ↦ BSCall(spot, t, strike, expiry, vol, rate)` has a derivative `d` at `time`, and
`th = d / 365`. -/
theorem theta_is_time_derivative (spot time strike expiry vol rate : ℝ)
    (hs : 0 < spot) (hk : 0 < strike) (ht : time < expiry) (hv : 0 < vol) :
    ∃ th d : ℝ, BSCall_Theta (Dbl.fin spot) (Dbl.fin time) (Dbl.fin strike) (Dbl.fin expiry)
        (Dbl.fin vol) (Dbl.fin rate) = Dbl.fin th
        ∧ HasDerivAt (fun t : ℝ => (BSCall (Dbl.fin spot) (Dbl.fin t) (Dbl.fin strike)
            (Dbl.fin expiry) (Dbl.fin vol) (Dbl.fin rate)).toReal) d time
        ∧ th = d / 365 := by
  obtain ⟨hPhi, -⟩ := Phi_facts
  obtain ⟨key, -, -, ⟨a, hd1, hd2⟩⟩ := d1R_facts rate hs hk ht hv
  have hτ : 0 < expiry - time := by linarith
  have hw : 0 < Real.sqrt (expiry - time) := Real.sqrt_pos.mpr hτ
  have hcall : HasDerivAt (fun t => spot * Phi (d1R spot t strike expiry vol rate)
        - strike * Real.exp (-(rate / 100) * (expiry - t))
          * Phi (d2R spot t strike expiry vol rate))
      (-spot * (vol / 100) * phi (d1R spot time strike expiry vol rate) / 2
          / Real.sqrt (expiry - time)
        - rate / 100 * strike * Real.exp (-(rate / 100) * (expiry - time))
          * Phi (d2R spot time strike expiry vol rate))
      time := by
    have hsub : HasDerivAt (fun t : ℝ => expiry - t) (-1) time := by
      simpa using (hasDerivAt_id time).const_sub expiry
    have he := ((hsub.const_mul (-(rate / 100))).exp).const_mul strike
    have h1 := (hPhi (d1R spot time strike expiry vol rate)).comp time hd1
    have h2 := (hPhi (d2R spot time strike expiry vol rate)).comp time hd2
    have h := (h1.const_mul spot).sub (he.mul h2)
    convert h using 1
    simp only [Function.comp_apply]
    have hhalf : spot * (vol / 100) * phi (d1R spot time strike expiry vol rate) / 2
          / Real.sqrt (expiry - time)
        = spot * phi (d1R spot time strike expiry vol rate)
          * (vol / 100 / (2 * Real.sqrt (expiry - time))) := by
      field_simp
      ring
    rw [neg_mul, neg_mul, neg_div, neg_div, hhalf]
    linear_combination (-(a + vol / 100 / (2 * Real.sqrt (expiry - time)))) * key
  refine ⟨_, _, (BS_fin rate hs hk ht hv).2.2.2.2.2.2.2.2.1, ?_, rfl⟩
  refine hcall.congr_of_eventuallyEq ?_
  filter_upwards [gt_mem_nhds ht] with t h
  rw [(BS_fin rate hs hk h hv).1]
  rfl

/-- Witness of C9 at spot = 100, time = 0, strike = 100, expiry = 1, vol = 20, rate = 5. -/
theorem theta_is_time_derivative_witness :
    ∃ th d : ℝ, BSCall_Theta (Dbl.fin 100) (Dbl.fin 0) (Dbl.fin 100) (Dbl.fin 1) (Dbl.fin 20) (Dbl.fin 5) = Dbl.fin th
        ∧ HasDerivAt (fun t : ℝ => (BSCall (Dbl.fin 100) (Dbl.fin t) (Dbl.fin 100)
            (Dbl.fin 1) (Dbl.fin 20) (Dbl.fin 5)).toReal) d 0
        ∧ th = d / 365 :=
  theta_is_time_derivative 100 0 100 1 20 5 (by norm_num) (by norm_num) (by norm_num) (by norm_num)

/-- C10: gamma is the second spot-derivative of the price.  For spot > 0, strike > 0,
time < expiry, vol > 0 and every rate, `BSCall_Gamma` is a finite value `g` and the function
`s ↦ BSCall_Delta(s, time, strike, expiry, vol, rate)` has derivative `g` at `spot`. -/
theorem gamma_is_delta_derivative (spot time strike expiry vol rate : ℝ)
    (hs : 0 < spot) (hk : 0 < strike) (ht : time < expiry) (hv : 0 < vol) :
    ∃ g : ℝ, BSCall_Gamma (Dbl.fin spot) (Dbl.fin time) (Dbl.fin strike) (Dbl.fin expiry)
        (Dbl.fin vol) (Dbl.fin rate) = Dbl.fin g
        ∧ HasDerivAt (fun s : ℝ => (BSCall_Delta (Dbl.fin s) (Dbl.fin time) (Dbl.fin strike)
            (Dbl.fin expiry) (Dbl.fin vol) (Dbl.fin rate)).toReal) g spot := by
  obtain ⟨hPhi, -⟩ := Phi_facts
  obtain ⟨-, ⟨hd1, -⟩, -⟩ := d1R_facts rate hs hk ht hv
  have hdelta : HasDerivAt (fun s => Phi (d1R s time strike expiry vol rate))
      (phi (d1R spot time strike expiry vol rate) / spot / (vol / 100)
        / Real.sqrt (expiry - time)) spot := by
    have h1 := (hPhi (d1R spot time strike expiry vol rate)).comp spot hd1
    convert h1 using 1
    ring
  refine ⟨_, (BS_fin rate hs hk ht hv).2.2.2.2.1, ?_⟩
  refine hdelta.congr_of_eventuallyEq ?_
  filter_upwards [lt_mem_nhds hs] with s h
  rw [(BS_fin rate h hk ht hv).2.2.1]
  rfl

/-- Witness of C10 at spot = 100, time = 0, strike = 100, expiry = 1, vol = 20, rate = 5. -/
theorem gamma_is_delta_derivative_witness :
    ∃ g : ℝ, BSCall_Gamma (Dbl.fin 100) (Dbl.fin 0) (Dbl.fin 100) (Dbl.fin 1) (Dbl.fin 20) (Dbl.fin 5) = Dbl.fin g
        ∧ HasDerivAt (fun s : ℝ => (BSCall_Delta (Dbl.fin s) (Dbl.fin 0) (Dbl.fin 100)
            (Dbl.fin 1) (Dbl.fin 20) (Dbl.fin 5)).toReal) g 100 :=
  gamma_is_delta_derivative 100 0 100 1 20 5 (by norm_num) (by norm_num) (by norm_num) (by norm_num)

/-! ## The solver on finite arguments -/

/-- For spot > 0 and strike > 0 the locals `x` and `scaled_price` of `implied_vol` are finite,
and `exp(x/2)`, `exp(-x/2)` are the forward and the strike over `sqrt(spot*strike)`. -/
theorem solver_fin {spot strike : ℝ} (hs : 0 < spot) (hk : 0 < strike) :
    (∀ expiry rate : ℝ,
      ImpliedVol.x (Dbl.fin spot) (Dbl.fin strike) (Dbl.fin expiry) (Dbl.fin rate)
        = Dbl.fin (Real.log (Real.exp (rate / 100 * expiry) * spot / strike)))
    ∧ (∀ price expiry rate : ℝ,
      ImpliedVol.scaled_price (Dbl.fin price) (Dbl.fin spot) (Dbl.fin strike) (Dbl.fin expiry)
          (Dbl.fin rate)
        = Dbl.fin (price * Real.exp (rate / 100 * expiry / 2) / Real.sqrt (spot * strike)))
    ∧ (∀ c : ℝ, Real.log (Real.exp c * spot / strike) = c + Real.log spot - Real.log strike)
    ∧ (∀ c : ℝ, Real.exp (Real.log (Real.exp c * spot / strike) / 2)
        = spot * Real.exp (c / 2) / Real.sqrt (spot * strike))
    ∧ (∀ c : ℝ, Real.exp (-Real.log (Real.exp c * spot / strike) / 2)
        = Real.exp (-c) * strike * Real.exp (c / 2) / Real.sqrt (spot * strike)) := by
  obtain ⟨-, -, rmul, -, rdiv, rdiv2, rdiv100, rexp, rlog, rsqrt, -, -, -, -, -⟩ := Dbl.fin_rules
  have exp_half_log : ∀ a : ℝ, 0 < a → Real.exp (Real.log a / 2) = Real.sqrt a := by
    intro a h
    have h2 : Real.exp (Real.log a / 2) * Real.exp (Real.log a / 2) = a := by
      rw [← Real.exp_add, add_halves, Real.exp_log h]
    calc Real.exp (Real.log a / 2)
        = Real.sqrt (Real.exp (Real.log a / 2) * Real.exp (Real.log a / 2)) :=
          (Real.sqrt_mul_self (Real.exp_pos _).le).symm
      _ = Real.sqrt a := by rw [h2]
  have log_forward : ∀ c : ℝ,
      Real.log (Real.exp c * spot / strike) = c + Real.log spot - Real.log strike := by
    intro c
    rw [Real.log_div (mul_pos (Real.exp_pos c) hs).ne.symm hk.ne.symm,
      Real.log_mul (Real.exp_pos c).ne.symm hs.ne.symm, Real.log_exp]
  have hss : 0 < Real.sqrt spot := Real.sqrt_pos.mpr hs
  have hsk : 0 < Real.sqrt strike := Real.sqrt_pos.mpr hk
  refine ⟨?_, ?_, log_forward, ?_, ?_⟩
  · intro expiry rate
    have h1 : 0 < Real.exp (rate / 100 * expiry) * spot / strike :=
      div_pos (mul_pos (Real.exp_pos _) hs) hk
    delta ImpliedVol.x
    simp only [rdiv100, rmul, rexp, rdiv _ _ hk.ne.symm, rlog _ h1]
  · intro price expiry rate
    have h1 : 0 < spot * strike := mul_pos hs hk
    delta ImpliedVol.scaled_price
    simp only [rdiv100, rmul, rdiv2, rexp, rsqrt _ h1.le,
      rdiv _ _ (Real.sqrt_pos.mpr h1).ne.symm]
  · intro c
    have e : (c + Real.log spot - Real.log strike) / 2
        = c / 2 + Real.log spot / 2 - Real.log strike / 2 := by ring
    rw [log_forward c, e, Real.exp_sub, Real.exp_add, exp_half_log _ hs, exp_half_log _ hk,
      Real.sqrt_mul hs.le]
    have h2 : Real.sqrt spot * Real.sqrt spot = spot := Real.mul_self_sqrt hs.le
    field_simp
    linear_combination (Real.exp (c / 2) * Real.sqrt strike) * h2
  · intro c
    have e : -(c + Real.log spot - Real.log strike) / 2
        = -c + c / 2 + Real.log strike / 2 - Real.log spot / 2 := by ring
    rw [log_forward c, e, Real.exp_sub, Real.exp_add, Real.exp_add, exp_half_log _ hs,
      exp_half_log _ hk, Real.sqrt_mul hs.le]
    have h2 : Real.sqrt strike * Real.sqrt strike = strike := Real.mul_self_sqrt hk.le
    field_simp
    linear_combination (Real.exp (-c) * Real.exp (c / 2) * Real.sqrt spot) * h2

/-- The lambdas `F` and `Fprime` on finite arguments with `sigma ≠ 0` (and `theta = 1`): the
value of `F`, the value `exp(x/2) * phi(x/sigma + sigma/2)` of `Fprime`, which is the derivative
of `F` in `sigma`, and the strict monotonicity of `F` on `sigma > 0`; `pdf` and `cdf` of the
standard normal distribution are `phi` and `Phi`. -/
theorem F_facts (x : ℝ) :
    (∀ sigma : ℝ, sigma ≠ 0 →
      ImpliedVol.F (Dbl.fin 1) (Dbl.fin x) ⟨Dbl.fin 0, Dbl.fin 1⟩ (Dbl.fin sigma)
        = Dbl.fin (Real.exp (x / 2) * Phi (x / sigma + sigma / 2)
            - Real.exp (-x / 2) * Phi (x / sigma - sigma / 2)))
    ∧ (∀ sigma : ℝ, sigma ≠ 0 →
      ImpliedVol.Fprime (Dbl.fin 1) (Dbl.fin x) ⟨Dbl.fin 0, Dbl.fin 1⟩ (Dbl.fin sigma)
        = Dbl.fin (Real.exp (x / 2) * phi (x / sigma + sigma / 2)))
    ∧ (∀ y : ℝ, NormalDistribution.pdf ⟨Dbl.fin 0, Dbl.fin 1⟩ (Dbl.fin y) = Dbl.fin (phi y))
    ∧ (∀ y : ℝ, NormalDistribution.cdf ⟨Dbl.fin 0, Dbl.fin 1⟩ (Dbl.fin y) = Dbl.fin (Phi y))
    ∧ (∀ sigma : ℝ, sigma ≠ 0 →
      HasDerivAt (fun s : ℝ =>
          (ImpliedVol.F (Dbl.fin 1) (Dbl.fin x) ⟨Dbl.fin 0, Dbl.fin 1⟩ (Dbl.fin s)).toReal)
        (Real.exp (x / 2) * phi (x / sigma + sigma / 2)) sigma)
    ∧ StrictMonoOn (fun s : ℝ =>
          (ImpliedVol.F (Dbl.fin 1) (Dbl.fin x) ⟨Dbl.fin 0, Dbl.fin 1⟩ (Dbl.fin s)).toReal)
        (Set.Ioi 0) := by
  obtain ⟨radd, rsub, rmul, rneg, rdiv, rdiv2, -, rexp, -, rsqrt, -, -, rtoReal, -, -⟩ :=
    Dbl.fin_rules
  obtain ⟨phi_eq, phi_pos⟩ := phi_facts
  obtain ⟨hPhi, -⟩ := Phi_facts
  have h7 : (1 : ℝ) * Real.sqrt 2 ≠ 0 := by positivity
  have h8 : (1 : ℝ) * Real.sqrt (2 * Real.pi) ≠ 0 := by positivity
  have h9 : (2 : ℝ) * 1 * 1 ≠ 0 := by norm_num
  have herf : ∀ a : ℝ, Dbl.erf (Dbl.fin a) = Dbl.fin (erfReal a) := fun _ => rfl
  have hcdf : ∀ y : ℝ,
      NormalDistribution.cdf ⟨Dbl.fin 0, Dbl.fin 1⟩ (Dbl.fin y) = Dbl.fin (Phi y) := by
    intro y
    delta NormalDistribution.cdf Phi
    simp only [rsqrt 2 (by norm_num), rmul, rsub, rdiv _ _ h7, herf, radd]
  have hpdf : ∀ y : ℝ,
      NormalDistribution.pdf ⟨Dbl.fin 0, Dbl.fin 1⟩ (Dbl.fin y) = Dbl.fin (phi y) := by
    intro y
    delta NormalDistribution.pdf phi M_PI
    simp only [rmul, rsqrt (2 * Real.pi) (by positivity), rsub, rdiv _ _ h8, rdiv _ _ h9, rneg,
      rexp]
  have key : ∀ sigma : ℝ, sigma ≠ 0 →
      Real.exp (-x / 2) * phi (x / sigma - sigma / 2)
        = Real.exp (x / 2) * phi (x / sigma + sigma / 2) := by
    intro sigma h
    rw [phi_eq, phi_eq, ← mul_div_assoc, ← mul_div_assoc, ← Real.exp_add, ← Real.exp_add]
    congr 2
    field_simp
    ring
  have hF : ∀ sigma : ℝ, sigma ≠ 0 →
      ImpliedVol.F (Dbl.fin 1) (Dbl.fin x) ⟨Dbl.fin 0, Dbl.fin 1⟩ (Dbl.fin sigma)
        = Dbl.fin (Real.exp (x / 2) * Phi (x / sigma + sigma / 2)
            - Real.exp (-x / 2) * Phi (x / sigma - sigma / 2)) := by
    intro sigma h
    delta ImpliedVol.F
    simp only [rdiv2, rdiv _ _ h, radd, rsub, rmul, rneg, rexp, hcdf, one_mul]
  have hFp : ∀ sigma : ℝ, sigma ≠ 0 →
      ImpliedVol.Fprime (Dbl.fin 1) (Dbl.fin x) ⟨Dbl.fin 0, Dbl.fin 1⟩ (Dbl.fin sigma)
        = Dbl.fin (Real.exp (x / 2) * phi (x / sigma + sigma / 2)) := by
    intro sigma h
    have h2 : sigma * sigma ≠ 0 := mul_ne_zero h h
    delta ImpliedVol.Fprime
    simp only [rdiv2, rdiv _ _ h, rdiv _ _ h2, radd, rsub, rmul, rneg, rexp, hpdf, one_mul]
    congr 1
    linear_combination (-(-x / (sigma * sigma) - 0.5)) * key sigma h
  have hD : ∀ sigma : ℝ, sigma ≠ 0 →
      HasDerivAt (fun s : ℝ => Real.exp (x / 2) * Phi (x / s + s / 2)
            - Real.exp (-x / 2) * Phi (x / s - s / 2))
        (Real.exp (x / 2) * phi (x / sigma + sigma / 2)) sigma := by
    intro sigma h
    have hq : HasDerivAt (fun s : ℝ => x / s) (-x / (sigma * sigma)) sigma := by
      have h0 := (hasDerivAt_const sigma x).div (hasDerivAt_id sigma) h
      convert h0 using 1
      simp only [id_eq, zero_mul, zero_sub, mul_one, sq]
    have hh : HasDerivAt (fun s : ℝ => s / 2) (1 / 2) sigma :=
      (hasDerivAt_id sigma).div_const 2
    have h1 := ((hPhi (x / sigma + sigma / 2)).comp sigma (hq.add hh)).const_mul
      (Real.exp (x / 2))
    have h2 := ((hPhi (x / sigma - sigma / 2)).comp sigma (hq.sub hh)).const_mul
      (Real.exp (-x / 2))
    have h3 := h1.sub h2
    convert h3 using 1
    linear_combination (-x / (sigma * sigma) - 1 / 2) * key sigma h
  have hD2 : ∀ sigma : ℝ, sigma ≠ 0 →
      HasDerivAt (fun s : ℝ =>
          (ImpliedVol.F (Dbl.fin 1) (Dbl.fin x) ⟨Dbl.fin 0, Dbl.fin 1⟩ (Dbl.fin s)).toReal)
        (Real.exp (x / 2) * phi (x / sigma + sigma / 2)) sigma := by
    intro sigma h
    refine (hD sigma h).congr_of_eventuallyEq ?_
    filter_upwards [isOpen_ne.mem_nhds h] with s hs
    rw [hF s hs, rtoReal]
  refine ⟨hF, hFp, hpdf, hcdf, hD2, ?_⟩
  apply strictMonoOn_of_deriv_pos (convex_Ioi 0)
  · intro s hs
    exact (hD2 s (ne_of_gt hs)).continuousAt.continuousWithinAt
  · intro s hs
    rw [interior_Ioi] at hs
    rw [(hD2 s (ne_of_gt hs)).deriv]
    exact mul_pos (Real.exp_pos _) (phi_pos _)

/-! ## Newton's method near a zero -/

/-- C11: the concrete scenario.  At spot = 100, time = 0, strike = 100, expiry = 1, vol = 20,
rate = 5 the five values are finite and agree with the stated figures to four decimals:
`|BSCall - 10.4506|`, `|BSCall_Delta - 0.6368|`, `|BSCall_Gamma - 0.0188|`,
`|BSCall_Vega - 0.3752|` and `|BSCall_Theta + 0.0176|` are each at most `0.00005`. -/
theorem concrete_scenario :
    ∃ c d g v th : ℝ,
      BSCall (Dbl.fin 100) (Dbl.fin 0) (Dbl.fin 100) (Dbl.fin 1) (Dbl.fin 20) (Dbl.fin 5)
          = Dbl.fin c ∧ |c - 10.4506| ≤ 0.00005
      ∧ BSCall_Delta (Dbl.fin 100) (Dbl.fin 0) (Dbl.fin 100) (Dbl.fin 1) (Dbl.fin 20) (Dbl.fin 5)
          = Dbl.fin d ∧ |d - 0.6368| ≤ 0.00005
      ∧ BSCall_Gamma (Dbl.fin 100) (Dbl.fin 0) (Dbl.fin 100) (Dbl.fin 1) (Dbl.fin 20) (Dbl.fin 5)
          = Dbl.fin g ∧ |g - 0.0188| ≤ 0.00005
      ∧ BSCall_Vega (Dbl.fin 100) (Dbl.fin 0) (Dbl.fin 100) (Dbl.fin 1) (Dbl.fin 20) (Dbl.fin 5)
          = Dbl.fin v ∧ |v - 0.3752| ≤ 0.00005
      ∧ BSCall_Theta (Dbl.fin 100) (Dbl.fin 0) (Dbl.fin 100) (Dbl.fin 1) (Dbl.fin 20) (Dbl.fin 5)
          = Dbl.fin th ∧ |th - (-0.0176)| ≤ 0.00005 := by
  have h0 : (0:ℝ) < 100 := by norm_num
  have h1 : (0:ℝ) < 1 := by norm_num
  have h2 : (0:ℝ) < 20 := by norm_num
  have hw : Real.sqrt (1 - 0) = 1 := by norm_num
  obtain ⟨hPhi, -, -, Phi_zero, -⟩ := Phi_facts
  obtain ⟨phi_eq, -⟩ := phi_facts
  have hs0 : 0 < Real.sqrt (2 * Real.pi) := Real.sqrt_pos.mpr (by positivity)
  -- enclosures of the exponential by its Taylor polynomial
  have exp_taylor_bounds : ∀ x : ℝ, |x| ≤ 1 →
      1 + x + x ^ 2 / 2 + x ^ 3 / 6 + x ^ 4 / 24 + x ^ 5 / 120 - |x| ^ 6 * (7 / 4320)
          ≤ Real.exp x
        ∧ Real.exp x
          ≤ 1 + x + x ^ 2 / 2 + x ^ 3 / 6 + x ^ 4 / 24 + x ^ 5 / 120 + |x| ^ 6 * (7 / 4320) := by
    intro x hx
    have h := Real.exp_bound hx (show 0 < 6 by norm_num)
    simp only [Finset.sum_range_succ, Finset.sum_range_zero, Nat.factorial] at h
    norm_num at h
    rw [abs_le] at h
    constructor <;> linarith [h.1, h.2]
  have hE : (95122942 / 100000000 : ℝ) ≤ Real.exp (-(1 / 20))
      ∧ Real.exp (-(1 / 20)) ≤ (95122943 / 100000000 : ℝ) := by
    have h := exp_taylor_bounds (-(1 / 20))
      (show |(-(1 / 20) : ℝ)| ≤ 1 by rw [abs_le]; constructor <;> norm_num)
    rw [abs_neg, abs_of_pos (show (0:ℝ) < 1 / 20 by norm_num)] at h
    constructor
    · refine le_trans ?_ h.1
      norm_num
    · refine le_trans h.2 ?_
      norm_num
  have he : (94058806 / 100000000 : ℝ) ≤ Real.exp (-(49 / 800))
      ∧ Real.exp (-(49 / 800)) ≤ (94058807 / 100000000 : ℝ) := by
    have h := exp_taylor_bounds (-(49 / 800))
      (show |(-(49 / 800) : ℝ)| ≤ 1 by rw [abs_le]; constructor <;> norm_num)
    rw [abs_neg, abs_of_pos (show (0:ℝ) < 49 / 800 by norm_num)] at h
    constructor
    · refine le_trans ?_ h.1
      norm_num
    · refine le_trans h.2 ?_
      norm_num
  have hs : (250662827 / 100000000 : ℝ) ≤ Real.sqrt (2 * Real.pi)
      ∧ Real.sqrt (2 * Real.pi) ≤ (250662828 / 100000000 : ℝ) := by
    have h1 := Real.pi_gt_d20
    have h2 := Real.pi_lt_d20
    constructor
    · apply Real.le_sqrt_of_sq_le
      norm_num at h1 ⊢
      linarith
    · rw [Real.sqrt_le_left (by norm_num)]
      norm_num at h2 ⊢
      linarith
  have hp : (37524034 / 100000000 : ℝ) ≤ phi (7 / 20)
      ∧ phi (7 / 20) ≤ (37524036 / 100000000 : ℝ) := by
    have e : (-((7 / 20 : ℝ) ^ 2) / 2) = -(49 / 800) := by norm_num
    rw [phi_eq, e]
    generalize Real.sqrt (2 * Real.pi) = s at hs hs0
    constructor
    · rw [le_div_iff₀ hs0]
      nlinarith [hs.2, he.1]
    · rw [div_le_iff₀ hs0]
      nlinarith [hs.1, he.2]
  -- enclosures of the distribution function by the integrated Taylor polynomial of the density
  have gauss_taylor_bounds : ∀ t : ℝ, 0 ≤ t → t ≤ 1 →
      1 - t ^ 2 / 2 + t ^ 4 / 8 - t ^ 6 / 48 - 5 / 1536 * t ^ 8 ≤ Real.exp (-(t ^ 2) / 2)
        ∧ Real.exp (-(t ^ 2) / 2)
          ≤ 1 - t ^ 2 / 2 + t ^ 4 / 8 - t ^ 6 / 48 + 5 / 1536 * t ^ 8 := by
    intro t ht0 ht1
    have ht2 : t ^ 2 ≤ 1 := by nlinarith
    have hx : |(-(t ^ 2) / 2 : ℝ)| ≤ 1 := by
      rw [abs_le]; constructor <;> nlinarith [sq_nonneg t]
    have h := Real.exp_bound hx (show 0 < 4 by norm_num)
    simp only [Finset.sum_range_succ, Finset.sum_range_zero, Nat.factorial] at h
    have ha : |(-(t ^ 2) / 2 : ℝ)| = t ^ 2 / 2 := by
      rw [neg_div, abs_neg, abs_of_nonneg (by positivity)]
    rw [ha] at h
    norm_num at h
    rw [abs_le] at h
    constructor
    · have := h.1
      nlinarith [this]
    · have := h.2
      nlinarith [this]
  have hasDerivAt_Phi_sub_poly : ∀ e t : ℝ,
      HasDerivAt (fun x : ℝ => Phi x
          - (x - x ^ 3 / 6 + x ^ 5 / 40 - x ^ 7 / 336 + e * x ^ 9) / Real.sqrt (2 * Real.pi))
        ((Real.exp (-(t ^ 2) / 2) - (1 - t ^ 2 / 2 + t ^ 4 / 8 - t ^ 6 / 48 + 9 * e * t ^ 8))
          / Real.sqrt (2 * Real.pi)) t := by
    intro e t
    have hp : HasDerivAt (fun x : ℝ => x - x ^ 3 / 6 + x ^ 5 / 40 - x ^ 7 / 336 + e * x ^ 9)
        (1 - t ^ 2 / 2 + t ^ 4 / 8 - t ^ 6 / 48 + 9 * e * t ^ 8) t := by
      have h := ((((hasDerivAt_id t).sub ((hasDerivAt_pow 3 t).div_const 6)).add
        ((hasDerivAt_pow 5 t).div_const 40)).sub ((hasDerivAt_pow 7 t).div_const 336)).add
        ((hasDerivAt_pow 9 t).const_mul e)
      convert h using 1
      norm_num
      ring
    have h := (hPhi t).sub (hp.div_const (Real.sqrt (2 * Real.pi)))
    convert h using 1
    rw [phi_eq]
    ring
  have Phi_lower : ∀ x : ℝ, 0 ≤ x → x ≤ 1 →
      1 / 2 + (x - x ^ 3 / 6 + x ^ 5 / 40 - x ^ 7 / 336 - 5 / 13824 * x ^ 9)
          / Real.sqrt (2 * Real.pi) ≤ Phi x := by
    intro x hx0 hx1
    have hmono : MonotoneOn (fun x : ℝ => Phi x
        - (x - x ^ 3 / 6 + x ^ 5 / 40 - x ^ 7 / 336 + (-(5 / 13824)) * x ^ 9)
          / Real.sqrt (2 * Real.pi)) (Set.Icc 0 1) := by
      apply monotoneOn_of_deriv_nonneg (convex_Icc 0 1)
      · intro t _
        exact (hasDerivAt_Phi_sub_poly _ t).continuousAt.continuousWithinAt
      · intro t _
        exact (hasDerivAt_Phi_sub_poly _ t).differentiableAt.differentiableWithinAt
      · intro t ht
        rw [interior_Icc] at ht
        rw [(hasDerivAt_Phi_sub_poly _ t).deriv]
        apply div_nonneg _ hs0.le
        have := (gauss_taylor_bounds t ht.1.le ht.2.le).1
        linarith
    have h := hmono (Set.left_mem_Icc.mpr zero_le_one) ⟨hx0, hx1⟩ hx0
    simp only [Phi_zero] at h
    generalize Real.sqrt (2 * Real.pi) = s at h hs0 ⊢
    norm_num at h
    have e : (x - x ^ 3 / 6 + x ^ 5 / 40 - x ^ 7 / 336 - 5 / 13824 * x ^ 9)
        = (x - x ^ 3 / 6 + x ^ 5 / 40 - x ^ 7 / 336 + -(5 / 13824 * x ^ 9)) := by ring
    rw [e]
    linarith
  have Phi_upper : ∀ x : ℝ, 0 ≤ x → x ≤ 1 →
      Phi x ≤ 1 / 2 + (x - x ^ 3 / 6 + x ^ 5 / 40 - x ^ 7 / 336 + 5 / 13824 * x ^ 9)
          / Real.sqrt (2 * Real.pi) := by
    intro x hx0 hx1
    have hanti : AntitoneOn (fun x : ℝ => Phi x
        - (x - x ^ 3 / 6 + x ^ 5 / 40 - x ^ 7 / 336 + (5 / 13824) * x ^ 9)
          / Real.sqrt (2 * Real.pi)) (Set.Icc 0 1) := by
      apply antitoneOn_of_deriv_nonpos (convex_Icc 0 1)
      · intro t _
        exact (hasDerivAt_Phi_sub_poly _ t).continuousAt.continuousWithinAt
      · intro t _
        exact (hasDerivAt_Phi_sub_poly _ t).differentiableAt.differentiableWithinAt
      · intro t ht
        rw [interior_Icc] at ht
        rw [(hasDerivAt_Phi_sub_poly _ t).deriv]
        apply div_nonpos_of_nonpos_of_nonneg _ hs0.le
        have := (gauss_taylor_bounds t ht.1.le ht.2.le).2
        linarith
    have h := hanti (Set.left_mem_Icc.mpr zero_le_one) ⟨hx0, hx1⟩ hx0
    simp only [Phi_zero] at h
    generalize Real.sqrt (2 * Real.pi) = s at h hs0 ⊢
    norm_num at h
    linarith
  have hl1 := Phi_lower (7 / 20) (by norm_num) (by norm_num)
  have hu1 := Phi_upper (7 / 20) (by norm_num) (by norm_num)
  have hl2 := Phi_lower (3 / 20) (by norm_num) (by norm_num)
  have hu2 := Phi_upper (3 / 20) (by norm_num) (by norm_num)
  clear Phi_lower Phi_upper hasDerivAt_Phi_sub_poly gauss_taylor_bounds exp_taylor_bounds
  have hP1 : (63683063 / 100000000 : ℝ) ≤ Phi (7 / 20)
      ∧ Phi (7 / 20) ≤ (63683066 / 100000000 : ℝ) := by
    generalize Real.sqrt (2 * Real.pi) = s at hs hs0 hl1 hu1
    constructor
    · refine le_trans ?_ hl1
      rw [← sub_le_iff_le_add', le_div_iff₀ hs0]
      norm_num
      linarith [hs.2]
    · refine le_trans hu1 ?_
      rw [← le_sub_iff_add_le', div_le_iff₀ hs0]
      norm_num
      linarith [hs.1]
  have hP2 : (55961769 / 100000000 : ℝ) ≤ Phi (3 / 20)
      ∧ Phi (3 / 20) ≤ (55961770 / 100000000 : ℝ) := by
    generalize Real.sqrt (2 * Real.pi) = s at hs hs0 hl2 hu2
    constructor
    · refine le_trans ?_ hl2
      rw [← sub_le_iff_le_add', le_div_iff₀ hs0]
      norm_num
      linarith [hs.2]
    · refine le_trans hu2 ?_
      rw [← le_sub_iff_add_le', div_le_iff₀ hs0]
      norm_num
      linarith [hs.1]
  clear hl1 hu1 hl2 hu2 hs he
  -- the five values
  have d1R_scenario : d1R 100 0 100 1 20 5 = 7 / 20 := by
    delta d1R; norm_num
  have d2R_scenario : d2R 100 0 100 1 20 5 = 3 / 20 := by
    delta d2R; norm_num
  have exp_scenario : Real.exp (-(5 / 100) * (1 - 0)) = Real.exp (-(1 / 20)) := by
    congr 1; norm_num
  obtain ⟨b1, -, b2, -, b3, -, b4, -, b5, -⟩ := BS_fin 5 h0 h0 h1 h2
  refine ⟨_, _, _, _, _, b1, ?_, b2, ?_, b3, ?_, b4, ?_, b5, ?_⟩
  · rw [d1R_scenario, d2R_scenario, exp_scenario, abs_le]
    generalize Phi (7 / 20) = P1 at hP1
    generalize Phi (3 / 20) = P2 at hP2
    generalize Real.exp (-(1 / 20)) = E at hE
    constructor <;> nlinarith [hP1.1, hP1.2, hP2.1, hP2.2, hE.1, hE.2,
      mul_le_mul hE.1 hP2.1 (by norm_num) (le_trans (by norm_num) hE.1),
      mul_le_mul hE.2 hP2.2 (le_trans (by norm_num) hP2.1) (by norm_num)]
  · rw [d1R_scenario, abs_le]
    constructor <;> linarith [hP1.1, hP1.2]
  · rw [d1R_scenario, hw, abs_le]
    constructor <;> norm_num <;> linarith [hp.1, hp.2]
  · rw [d1R_scenario, hw, abs_le]
    constructor <;> norm_num <;> linarith [hp.1, hp.2]
  · rw [d1R_scenario, d2R_scenario, exp_scenario, hw, abs_le]
    generalize Phi (3 / 20) = P2 at hP2
    generalize Real.exp (-(1 / 20)) = E at hE
    generalize phi (7 / 20) = p at hp
    constructor <;> nlinarith [hP2.1, hP2.2, hE.1, hE.2, hp.1, hp.2,
      mul_le_mul hE.1 hP2.1 (by norm_num) (le_trans (by norm_num) hE.1),
      mul_le_mul hE.2 hP2.2 (le_trans (by norm_num) hP2.1) (by norm_num)]

namespace options

/-- C12: facade rejection.  For every `Option` object and every (spot, time, vol, rate), each of
`price`, `delta`, `gamma`, `vega` and `theta` throws `invalid_argument` if and only if
`time > expiry` or the stored type is neither "call" nor "put". -/
theorem facade_rejection (self : Option) (spot time vol rate : Dbl) :
    ((self.price spot time vol rate).1.raised
        ↔ (time > self.expiry ∨ (self.type ≠ "call" ∧ self.type ≠ "put")))
    ∧ ((self.delta spot time vol rate).1.raised
        ↔ (time > self.expiry ∨ (self.type ≠ "call" ∧ self.type ≠ "put")))
    ∧ ((self.gamma spot time vol rate).1.raised
        ↔ (time > self.expiry ∨ (self.type ≠ "call" ∧ self.type ≠ "put")))
    ∧ ((self.vega spot time vol rate).1.raised
        ↔ (time > self.expiry ∨ (self.type ≠ "call" ∧ self.type ≠ "put")))
    ∧ ((self.theta spot time vol rate).1.raised
        ↔ (time > self.expiry ∨ (self.type ≠ "call" ∧ self.type ≠ "put"))) := by
  have key : ∀ X Y : Dbl,
      ((if time > self.expiry then
          (Result.invalid_argument "Evaluation time must precede expiry", self)
        else if self.type = "call" then (Result.value X, self)
        else if self.type ≠ "put" then (Result.invalid_argument "Invalid type", self)
        else (Result.value Y, self) : Result Dbl × Option).1.raised
        ↔ (time > self.expiry ∨ (self.type ≠ "call" ∧ self.type ≠ "put"))) := by
    intro X Y
    by_cases h1 : time > self.expiry
    · rw [if_pos h1]
      exact ⟨fun _ => Or.inl h1, fun _ => True.intro⟩
    · rw [if_neg h1]
      by_cases h2 : self.type = "call"
      · rw [if_pos h2]
        exact ⟨fun h => False.elim h,
          fun h => h.elim (fun h => absurd h h1) (fun h => absurd h2 h.1)⟩
      · rw [if_neg h2]
        by_cases h3 : self.type ≠ "put"
        · rw [if_pos h3]
          exact ⟨fun _ => Or.inr ⟨h2, h3⟩, fun _ => True.intro⟩
        · rw [if_neg h3]
          exact ⟨fun h => False.elim h,
            fun h => h.elim (fun h => absurd h h1) (fun h => absurd h.2 h3)⟩
  exact ⟨key _ _, key _ _, key _ _, key _ _, key _ _⟩

/-- C13: facade delegation.  Whenever `time <= expiry`, each of `price`, `delta`, `gamma`, `vega`
and `theta` returns the value of the matching `BSCall...` function when the stored type is
"call" and of the matching `BSPut...` function when it is "put", called with the object's own
strike and expiry, and the object is the same after the call. -/
theorem facade_delegation (self : Option) (spot time vol rate : Dbl)
    (h : time ≤ self.expiry) :
    (self.type = "call" →
      self.price spot time vol rate
          = (Result.value (BSCall spot time self.strike self.expiry vol rate), self)
        ∧ self.delta spot time vol rate
          = (Result.value (BSCall_Delta spot time self.strike self.expiry vol rate), self)
        ∧ self.gamma spot time vol rate
          = (Result.value (BSCall_Gamma spot time self.strike self.expiry vol rate), self)
        ∧ self.vega spot time vol rate
          = (Result.value (BSCall_Vega spot time self.strike self.expiry vol rate), self)
        ∧ self.theta spot time vol rate
          = (Result.value (BSCall_Theta spot time self.strike self.expiry vol rate), self))
    ∧ (self.type = "put" →
      self.price spot time vol rate
          = (Result.value (BSPut spot time self.strike self.expiry vol rate), self)
        ∧ self.delta spot time vol rate
          = (Result.value (BSPut_Delta spot time self.strike self.expiry vol rate), self)
        ∧ self.gamma spot time vol rate
          = (Result.value (BSPut_Gamma spot time self.strike self.expiry vol rate), self)
        ∧ self.vega spot time vol rate
          = (Result.value (BSPut_Vega spot time self.strike self.expiry vol rate), self)
        ∧ self.theta spot time vol rate
          = (Result.value (BSPut_Theta spot time self.strike self.expiry vol rate), self)) := by
  have hn : ¬ time > self.expiry := Dbl.nan_rules.2.2.2.2.2.2.2.2.2.2.2.2.2.2.2.2.2.2 _ _ h
  constructor
  · intro hc
    have key : ∀ X Y : Dbl,
        (if time > self.expiry then
            (Result.invalid_argument "Evaluation time must precede expiry", self)
          else if self.type = "call" then (Result.value X, self)
          else if self.type ≠ "put" then (Result.invalid_argument "Invalid type", self)
          else (Result.value Y, self) : Result Dbl × Option) = (Result.value X, self) := by
      intro X Y
      rw [if_neg hn, if_pos hc]
    exact ⟨key _ _, key _ _, key _ _, key _ _, key _ _⟩
  · intro hp
    have hc : ¬ self.type = "call" := by
      rw [hp]; decide
    have h3 : ¬ self.type ≠ "put" := fun h => h hp
    have key : ∀ X Y : Dbl,
        (if time > self.expiry then
            (Result.invalid_argument "Evaluation time must precede expiry", self)
          else if self.type = "call" then (Result.value X, self)
          else if self.type ≠ "put" then (Result.invalid_argument "Invalid type", self)
          else (Result.value Y, self) : Result Dbl × Option) = (Result.value Y, self) := by
      intro X Y
      rw [if_neg hn, if_neg hc, if_neg h3]
    exact ⟨key _ _, key _ _, key _ _, key _ _, key _ _⟩

/-- Witness of C13: a put struck at 100 expiring at 1, priced at time 0. -/
theorem facade_delegation_witness :
    Dbl.fin 0 ≤ Dbl.fin 1
      ∧ (Option.mk (Dbl.fin 100) (Dbl.fin 1) "put").price (Dbl.fin 100) (Dbl.fin 0) (Dbl.fin 20)
          (Dbl.fin 5)
        = (Result.value (BSPut (Dbl.fin 100) (Dbl.fin 0) (Dbl.fin 100) (Dbl.fin 1) (Dbl.fin 20) (Dbl.fin 5)), Option.mk (Dbl.fin 100) (Dbl.fin 1) "put") :=
  ⟨(Dbl.fin_rules.2.2.2.2.2.2.2.2.2.2.2.2.2.1 0 1).mpr (by norm_num),
    ((facade_delegation (Option.mk (Dbl.fin 100) (Dbl.fin 1) "put") (Dbl.fin 100) (Dbl.fin 0)
      (Dbl.fin 20) (Dbl.fin 5)
      ((Dbl.fin_rules.2.2.2.2.2.2.2.2.2.2.2.2.2.1 0 1).mpr (by norm_num))).2 rfl).1⟩

/-- C14: strike and expiry are fixed at construction.  For every object and every argument,
`set_strike` and `set_expiry` throw `invalid_argument` and leave the object as it was; after any
sequence of method calls, `get_strike` and `get_expiry` return the values given to the
constructor. -/
theorem strike_expiry_fixed :
    (∀ (self : Option) (_strike : Dbl),
      (self.set_strike _strike).1.raised ∧ (self.set_strike _strike).2 = self)
    ∧ (∀ (self : Option) (_expiry : Dbl),
      (self.set_expiry _expiry).1.raised ∧ (self.set_expiry _expiry).2 = self)
    ∧ (∀ (strike expiry : Dbl) (type : String) (calls : List MethodCall),
      ((Option.mk strike expiry type).afterAll calls).get_strike.1 = Result.value strike
        ∧ ((Option.mk strike expiry type).afterAll calls).get_expiry.1
          = Result.value expiry) := by
  refine ⟨fun self k => ⟨True.intro, rfl⟩, fun self e => ⟨True.intro, rfl⟩, ?_⟩
  have hafter : ∀ (self : Option) (c : MethodCall),
      (self.after c).strike = self.strike ∧ (self.after c).expiry = self.expiry := by
    intro self c
    have key : ∀ (p q r : Prop) [Decidable p] [Decidable q] [Decidable r]
        (A B C D : Result Dbl),
        ((if p then (A, self) else if q then (B, self) else if r then (C, self)
          else (D, self) : Result Dbl × Option).2).strike = self.strike
        ∧ ((if p then (A, self) else if q then (B, self) else if r then (C, self)
          else (D, self) : Result Dbl × Option).2).expiry = self.expiry := by
      intro p q r _ _ _ A B C D
      split_ifs <;> exact ⟨rfl, rfl⟩
    cases c with
    | get_strike => exact ⟨rfl, rfl⟩
    | get_expiry => exact ⟨rfl, rfl⟩
    | get_type => exact ⟨rfl, rfl⟩
    | set_strike k => exact ⟨rfl, rfl⟩
    | set_expiry e => exact ⟨rfl, rfl⟩
    | set_type t =>
      show ((if t = "call" then (Result.value (), { self with type := t })
          else if t = "put" then (Result.value (), { self with type := t })
          else (Result.invalid_argument "Must provide a type", self)
            : Result Unit × Option).2).strike = self.strike
        ∧ ((if t = "call" then (Result.value (), { self with type := t })
          else if t = "put" then (Result.value (), { self with type := t })
          else (Result.invalid_argument "Must provide a type", self)
            : Result Unit × Option).2).expiry = self.expiry
      split_ifs <;> exact ⟨rfl, rfl⟩
    | price s t v r => exact key _ _ _ _ _ _ _
    | delta s t v r => exact key _ _ _ _ _ _ _
    | gamma s t v r => exact key _ _ _ _ _ _ _
    | vega s t v r => exact key _ _ _ _ _ _ _
    | theta s t v r => exact key _ _ _ _ _ _ _
  have hall : ∀ (calls : List MethodCall) (self : Option),
      (self.afterAll calls).strike = self.strike
        ∧ (self.afterAll calls).expiry = self.expiry := by
    intro calls
    induction calls with
    | nil => exact fun self => ⟨rfl, rfl⟩
    | cons c cs ih =>
      intro self
      have h1 := hafter self c
      have h2 := ih (self.after c)
      exact ⟨h2.1.trans h1.1, h2.2.trans h1.2⟩
  intro strike expiry type calls
  have h := hall calls (Option.mk strike expiry type)
  exact ⟨congrArg Result.value h.1, congrArg Result.value h.2⟩

/-- C15: type validation on the setter.  `set_type(t)` returns normally exactly when `t` is
"call" or "put", and then the stored type is `t`; for every other string it throws
`invalid_argument` and the stored type is unchanged; strike and expiry are unchanged in both
cases. -/
theorem set_type_validates (self : Option) (_type : String) :
    ((self.set_type _type).1 = Result.value () ↔ (_type = "call" ∨ _type = "put"))
    ∧ ((self.set_type _type).1.raised ↔ ¬ (_type = "call" ∨ _type = "put"))
    ∧ (self.set_type _type).2.type
        = (if _type = "call" ∨ _type = "put" then _type else self.type)
    ∧ (self.set_type _type).2.strike = self.strike
    ∧ (self.set_type _type).2.expiry = self.expiry := by
  by_cases h1 : _type = "call"
  · have e : self.set_type _type = (Result.value (), { self with type := _type }) := if_pos h1
    rw [e]
    exact ⟨⟨fun _ => Or.inl h1, fun _ => rfl⟩,
      ⟨fun h => False.elim h, fun h => absurd (Or.inl h1) h⟩,
      (if_pos (Or.inl h1)).symm, rfl, rfl⟩
  · by_cases h2 : _type = "put"
    · have e : self.set_type _type = (Result.value (), { self with type := _type }) :=
        (if_neg h1).trans (if_pos h2)
      rw [e]
      exact ⟨⟨fun _ => Or.inr h2, fun _ => rfl⟩,
        ⟨fun h => False.elim h, fun h => absurd (Or.inr h2) h⟩,
        (if_pos (Or.inr h2)).symm, rfl, rfl⟩
    · have hno : ¬ (_type = "call" ∨ _type = "put") := fun h => h.elim h1 h2
      have e : self.set_type _type = (Result.invalid_argument "Must provide a type", self) :=
        (if_neg h1).trans (if_neg h2)
      rw [e]
      exact ⟨⟨fun h => Result.noConfusion h, fun h => absurd h hno⟩,
        ⟨fun _ => hno, fun _ => True.intro⟩, (if_neg hno).symm, rfl, rfl⟩

end options

/-- C16: `F` is the normalized call price.  For spot > 0, strike > 0, expiry > 0, vol > 0 and
every rate, with `x = log(exp(r*expiry)*spot/strike)`, `r = rate/100` and
`s = (vol/100)*sqrt(expiry)`: the solver's `x` is that number, the solver's scaled price of
`BSCall(spot, 0, strike, expiry, vol, rate)` is
`exp(x/2)*cdf(x/s + s/2) - exp(-x/2)*cdf(x/s - s/2)`, and `F(s) - scaled_price = 0`. -/
theorem F_is_normalized_call_price (spot strike expiry vol rate : ℝ)
    (hs : 0 < spot) (hk : 0 < strike) (hT : 0 < expiry) (hv : 0 < vol) :
    ImpliedVol.x (Dbl.fin spot) (Dbl.fin strike) (Dbl.fin expiry) (Dbl.fin rate)
        = Dbl.fin (Real.log (Real.exp (rate / 100 * expiry) * spot / strike))
    ∧ ImpliedVol.scaled_price
          (BSCall (Dbl.fin spot) (Dbl.fin 0) (Dbl.fin strike) (Dbl.fin expiry) (Dbl.fin vol)
            (Dbl.fin rate))
          (Dbl.fin spot) (Dbl.fin strike) (Dbl.fin expiry) (Dbl.fin rate)
        = Dbl.fin
          (Real.exp (Real.log (Real.exp (rate / 100 * expiry) * spot / strike) / 2)
              * Phi (Real.log (Real.exp (rate / 100 * expiry) * spot / strike)
                  / (vol / 100 * Real.sqrt expiry) + vol / 100 * Real.sqrt expiry / 2)
            - Real.exp (-Real.log (Real.exp (rate / 100 * expiry) * spot / strike) / 2)
              * Phi (Real.log (Real.exp (rate / 100 * expiry) * spot / strike)
                  / (vol / 100 * Real.sqrt expiry) - vol / 100 * Real.sqrt expiry / 2))
    ∧ ImpliedVol.F (Dbl.fin 1)
          (ImpliedVol.x (Dbl.fin spot) (Dbl.fin strike) (Dbl.fin expiry) (Dbl.fin rate))
          ⟨Dbl.fin 0, Dbl.fin 1⟩ (Dbl.fin vol / Dbl.fin 100 * Dbl.sqrt (Dbl.fin expiry))
        - ImpliedVol.scaled_price
          (BSCall (Dbl.fin spot) (Dbl.fin 0) (Dbl.fin strike) (Dbl.fin expiry) (Dbl.fin vol)
            (Dbl.fin rate))
          (Dbl.fin spot) (Dbl.fin strike) (Dbl.fin expiry) (Dbl.fin rate)
        = Dbl.fin 0 := by
  obtain ⟨hx, hsp, hlog, hex, henx⟩ := solver_fin hs hk
  obtain ⟨radd, rsub, rmul, rneg, rdiv, rdiv2, rdiv100, rexp, -, rsqrt, -, -, -, -, -⟩ :=
    Dbl.fin_rules
  have hw : 0 < Real.sqrt expiry := Real.sqrt_pos.mpr hT
  have hw2 : Real.sqrt expiry * Real.sqrt expiry = expiry := Real.mul_self_sqrt hT.le
  have hsig : vol / 100 * Real.sqrt expiry ≠ 0 := (mul_pos (by positivity) hw).ne.symm
  have d1R_total : d1R spot 0 strike expiry vol rate
      = Real.log (Real.exp (rate / 100 * expiry) * spot / strike)
          / (vol / 100 * Real.sqrt expiry) + vol / 100 * Real.sqrt expiry / 2 := by
    rw [hlog]
    delta d1R
    rw [Real.log_div hs.ne.symm hk.ne.symm, sub_zero]
    generalize Real.log spot = lS
    generalize Real.log strike = lK
    generalize hwd : Real.sqrt expiry = w at hw hw2
    rw [← hw2]
    field_simp
    ring
  have d2R_total : d2R spot 0 strike expiry vol rate
      = Real.log (Real.exp (rate / 100 * expiry) * spot / strike)
          / (vol / 100 * Real.sqrt expiry) - vol / 100 * Real.sqrt expiry / 2 := by
    rw [hlog]
    delta d2R
    rw [Real.log_div hs.ne.symm hk.ne.symm, sub_zero]
    generalize Real.log spot = lS
    generalize Real.log strike = lK
    generalize hwd : Real.sqrt expiry = w at hw hw2
    rw [← hw2]
    field_simp
    ring
  have hcall : (spot * Phi (d1R spot 0 strike expiry vol rate)
        - strike * Real.exp (-(rate / 100) * (expiry - 0))
          * Phi (d2R spot 0 strike expiry vol rate))
      * Real.exp (rate / 100 * expiry / 2) / Real.sqrt (spot * strike)
      = Real.exp (Real.log (Real.exp (rate / 100 * expiry) * spot / strike) / 2)
          * Phi (Real.log (Real.exp (rate / 100 * expiry) * spot / strike)
              / (vol / 100 * Real.sqrt expiry) + vol / 100 * Real.sqrt expiry / 2)
        - Real.exp (-Real.log (Real.exp (rate / 100 * expiry) * spot / strike) / 2)
          * Phi (Real.log (Real.exp (rate / 100 * expiry) * spot / strike)
              / (vol / 100 * Real.sqrt expiry) - vol / 100 * Real.sqrt expiry / 2) := by
    rw [d1R_total, d2R_total, hex (rate / 100 * expiry), henx (rate / 100 * expiry),
      sub_zero, neg_mul]
    ring
  have h7 : (1 : ℝ) * Real.sqrt 2 ≠ 0 := by positivity
  have herf : ∀ a : ℝ, Dbl.erf (Dbl.fin a) = Dbl.fin (erfReal a) := fun _ => rfl
  have hcdf : ∀ y : ℝ,
      NormalDistribution.cdf ⟨Dbl.fin 0, Dbl.fin 1⟩ (Dbl.fin y) = Dbl.fin (Phi y) := by
    intro y
    delta NormalDistribution.cdf Phi
    simp only [rsqrt 2 (by norm_num), rmul, rsub, rdiv _ _ h7, herf, radd]
  have hF : ∀ x sigma : ℝ, sigma ≠ 0 →
      ImpliedVol.F (Dbl.fin 1) (Dbl.fin x) ⟨Dbl.fin 0, Dbl.fin 1⟩ (Dbl.fin sigma)
        = Dbl.fin (Real.exp (x / 2) * Phi (x / sigma + sigma / 2)
            - Real.exp (-x / 2) * Phi (x / sigma - sigma / 2)) := by
    intro x sigma h
    delta ImpliedVol.F
    simp only [rdiv2, rdiv _ _ h, radd, rsub, rmul, rneg, rexp, hcdf, one_mul]
  have hB := (BS_fin rate hs hk hT hv).1
  refine ⟨hx expiry rate, ?_, ?_⟩
  · rw [hB, hsp, hcall]
  · rw [hB, hsp, hcall, hx expiry rate, rdiv100, rsqrt _ hT.le, rmul, hF _ _ hsig,
      rsub, sub_self]

/-- Witness of C16 at spot = 100, strike = 100, expiry = 1, vol = 20, rate = 5: the total
volatility `(20/100)*sqrt(1)` is a root of `F - scaled_price`. -/
theorem F_is_normalized_call_price_witness :
    ImpliedVol.F (Dbl.fin 1)
          (ImpliedVol.x (Dbl.fin 100) (Dbl.fin 100) (Dbl.fin 1) (Dbl.fin 5))
          ⟨Dbl.fin 0, Dbl.fin 1⟩ (Dbl.fin 20 / Dbl.fin 100 * Dbl.sqrt (Dbl.fin 1))
        - ImpliedVol.scaled_price
          (BSCall (Dbl.fin 100) (Dbl.fin 0) (Dbl.fin 100) (Dbl.fin 1) (Dbl.fin 20) (Dbl.fin 5))
          (Dbl.fin 100) (Dbl.fin 100) (Dbl.fin 1) (Dbl.fin 5)
        = Dbl.fin 0 :=
  (F_is_normalized_call_price 100 100 1 20 5 (by norm_num) (by norm_num) (by norm_num)
    (by norm_num)).2.2

/-- C17: `Fprime` is the derivative of `F`.  For every real `x` and every `sigma ≠ 0` (with
`theta = 1`), `Fprime(sigma)` is a finite value `d` and the function `F` has derivative `d` at
`sigma`. -/
theorem Fprime_is_derivative_of_F (x sigma : ℝ) (h : sigma ≠ 0) :
    ∃ d : ℝ, ImpliedVol.Fprime (Dbl.fin 1) (Dbl.fin x) ⟨Dbl.fin 0, Dbl.fin 1⟩ (Dbl.fin sigma)
        = Dbl.fin d
      ∧ HasDerivAt (fun s : ℝ =>
          (ImpliedVol.F (Dbl.fin 1) (Dbl.fin x) ⟨Dbl.fin 0, Dbl.fin 1⟩ (Dbl.fin s)).toReal)
        d sigma :=
  ⟨_, (F_facts x).2.1 sigma h, (F_facts x).2.2.2.2.1 sigma h⟩

/-- Witness of C17 at `x = 1`, `sigma = 2`. -/
theorem Fprime_is_derivative_of_F_witness :
    ∃ d : ℝ, ImpliedVol.Fprime (Dbl.fin 1) (Dbl.fin 1) ⟨Dbl.fin 0, Dbl.fin 1⟩ (Dbl.fin 2)
        = Dbl.fin d
      ∧ HasDerivAt (fun s : ℝ =>
          (ImpliedVol.F (Dbl.fin 1) (Dbl.fin 1) ⟨Dbl.fin 0, Dbl.fin 1⟩ (Dbl.fin s)).toReal)
        d 2 :=
  Fprime_is_derivative_of_F 1 2 (by norm_num)

/-- C19: `iota` is the intrinsic-value floor in normalized coordinates.  For spot > 0,
strike > 0 and every expiry and rate, with `r = rate/100`, the `iota` of Branch B equals
`max(spot - exp(-r*expiry)*strike, 0) * exp(r*expiry/2) / sqrt(spot*strike)`. -/
theorem iota_is_intrinsic_floor (spot strike expiry rate : ℝ) (hs : 0 < spot) (hk : 0 < strike) :
    ImpliedVol.iota (Dbl.fin 1)
        (ImpliedVol.x (Dbl.fin spot) (Dbl.fin strike) (Dbl.fin expiry) (Dbl.fin rate))
      = Dbl.fin (max (spot - Real.exp (-(rate / 100) * expiry) * strike) 0
          * Real.exp (rate / 100 * expiry / 2) / Real.sqrt (spot * strike)) := by
  obtain ⟨hxf, -, -, hex, henx⟩ := solver_fin hs hk
  obtain ⟨-, rsub, rmul, rneg, -, rdiv2, -, rexp, -, -, -, -, -, rle, -⟩ := Dbl.fin_rules
  have hq : 0 < Real.sqrt (spot * strike) := Real.sqrt_pos.mpr (mul_pos hs hk)
  have hE : 0 < Real.exp (rate / 100 * expiry) := Real.exp_pos _
  have hEn : Real.exp (-(rate / 100) * expiry) * Real.exp (rate / 100 * expiry) = 1 := by
    rw [← Real.exp_add, neg_mul, neg_add_cancel, Real.exp_zero]
  rw [hxf expiry rate]
  delta ImpliedVol.iota
  rw [rmul, one_mul, rdiv2, rneg, rdiv2, rexp, rexp, rsub, rmul, one_mul]
  by_cases hx : Real.log (Real.exp (rate / 100 * expiry) * spot / strike) ≤ 0
  · rw [if_pos ((rle _ _).mpr hx)]
    have h1 : Real.exp (rate / 100 * expiry) * spot / strike ≤ 1 := by
      by_contra hc
      exact absurd (Real.log_pos (not_le.mp hc)) (not_lt.mpr hx)
    have h2 : Real.exp (rate / 100 * expiry) * spot ≤ strike := by
      rwa [div_le_one hk] at h1
    have h3 : spot - Real.exp (-(rate / 100) * expiry) * strike ≤ 0 := by
      have := mul_le_mul_of_nonneg_left h2 (Real.exp_pos (-(rate / 100) * expiry)).le
      rw [← mul_assoc, hEn, one_mul] at this
      linarith
    rw [max_eq_right h3, zero_mul, zero_div]
  · rw [if_neg (fun hc => hx ((rle _ _).mp hc))]
    have h1 : 1 < Real.exp (rate / 100 * expiry) * spot / strike := by
      by_contra hc
      exact hx (Real.log_nonpos (div_pos (mul_pos hE hs) hk).le (not_lt.mp hc))
    have h2 : strike < Real.exp (rate / 100 * expiry) * spot := by
      rwa [one_lt_div hk] at h1
    have h3 : 0 ≤ spot - Real.exp (-(rate / 100) * expiry) * strike := by
      have := mul_lt_mul_of_pos_left h2 (Real.exp_pos (-(rate / 100) * expiry))
      rw [← mul_assoc, hEn, one_mul] at this
      linarith
    rw [max_eq_left h3, hex, henx, neg_mul]
    congr 1
    ring

/-- Witness of C19 at spot = 100, strike = 100, expiry = 1, rate = 5. -/
theorem iota_is_intrinsic_floor_witness :
    ImpliedVol.iota (Dbl.fin 1)
        (ImpliedVol.x (Dbl.fin 100) (Dbl.fin 100) (Dbl.fin 1) (Dbl.fin 5))
      = Dbl.fin (max (100 - Real.exp (-(5 / 100) * 1) * 100) 0
          * Real.exp (5 / 100 * 1 / 2) / Real.sqrt (100 * 100)) :=
  iota_is_intrinsic_floor 100 100 1 5 (by norm_num) (by norm_num)

/-- C20 fails as stated on the program: with the underflow of `exp` kept, at `x = 1` and
`sigma = 0.01` both densities in `Fprime` are `0` (their exponents `-(x/sigma ± sigma/2)²/2` are
below `-4999`), so `Fprime(sigma)` is exactly `0`: it is not positive, and a division by it is a
division by zero, `1/Fprime(sigma)` is `+inf` and `0/Fprime(sigma)` is NaN. -/
theorem Fprime_underflows :
    Ranged.Fprime (Dbl.fin 1) (Dbl.fin 1) ⟨Dbl.fin 0, Dbl.fin 1⟩ (Dbl.fin 0.01) = Dbl.fin 0
      ∧ ¬ (Dbl.fin 0 < Ranged.Fprime (Dbl.fin 1) (Dbl.fin 1) ⟨Dbl.fin 0, Dbl.fin 1⟩ (Dbl.fin 0.01))
      ∧ Dbl.fin 1 / Ranged.Fprime (Dbl.fin 1) (Dbl.fin 1) ⟨Dbl.fin 0, Dbl.fin 1⟩ (Dbl.fin 0.01) = Dbl.pinf
      ∧ Dbl.fin 0 / Ranged.Fprime (Dbl.fin 1) (Dbl.fin 1) ⟨Dbl.fin 0, Dbl.fin 1⟩ (Dbl.fin 0.01) = Dbl.nan := by
  obtain ⟨radd, rsub, rmul, rneg, rdiv, rdiv2, -, -, -, rsqrt, -, -, -, -, rlt⟩ := Dbl.fin_rules
  obtain ⟨-, -, -, -, -, -, -, -, -, -, -, -, -, zz, -, -, -, -, -⟩ := Dbl.nan_rules
  have hin : ∀ r : ℝ, ¬ 710 < r → ¬ r < -746 → Ranged.exp (Dbl.fin r) = Dbl.fin (Real.exp r) := by
    intro r h1 h2
    show (if 710 < r then Dbl.pinf else if r < -746 then Dbl.fin 0 else Dbl.fin (Real.exp r)) = _
    rw [if_neg h1, if_neg h2]
  have hz : ∀ r : ℝ, r < -746 → Ranged.exp (Dbl.fin r) = Dbl.fin 0 := by
    intro r h
    show (if 710 < r then Dbl.pinf else if r < -746 then Dbl.fin 0 else Dbl.fin (Real.exp r)) = _
    rw [if_neg (by linarith), if_pos h]
  have hpdf : ∀ t : ℝ, 1492 < t * t →
      Ranged.pdf ⟨Dbl.fin 0, Dbl.fin 1⟩ (Dbl.fin t) = Dbl.fin 0 := by
    intro t ht
    have h2 : (0 : ℝ) ≤ 2 * Real.pi := by positivity
    have h3 : (1 : ℝ) * Real.sqrt (2 * Real.pi) ≠ 0 := by positivity
    delta Ranged.pdf M_PI
    dsimp only
    simp only [rsub, rneg, rmul, rsqrt _ h2]
    rw [rdiv _ _ h3, rdiv _ _ (by norm_num : (2 : ℝ) * 1 * 1 ≠ 0), hz _ (by linarith), rmul,
      mul_zero]
  have hval : Ranged.Fprime (Dbl.fin 1) (Dbl.fin 1) ⟨Dbl.fin 0, Dbl.fin 1⟩ (Dbl.fin 0.01) = Dbl.fin 0 := by
    delta Ranged.Fprime
    simp only [rdiv2, rneg, rmul, rdiv _ _ (by norm_num : (0.01 : ℝ) ≠ 0),
      rdiv _ _ (by norm_num : (0.01 : ℝ) * 0.01 ≠ 0), radd, rsub]
    rw [hpdf _ (by norm_num), hpdf _ (by norm_num), hin _ (by norm_num) (by norm_num),
      hin _ (by norm_num) (by norm_num)]
    simp only [rmul, rsub, mul_zero, zero_mul, sub_zero]
  rw [hval]
  refine ⟨rfl, fun h => lt_irrefl (0 : ℝ) ((rlt 0 0).mp h), ?_, zz⟩
  show (if (0 : ℝ) = 0 then Dbl.infTimes true 1 else Dbl.fin (1 / 0)) = _
  rw [if_pos rfl]
  show (if (0 : ℝ) < 1 then Dbl.pinf else _) = _
  rw [if_pos one_pos]

/-- C20 (amended): in exact arithmetic the Newton divisor of Branch A is positive.  For every
real `x` and every `sigma ≠ 0`, with `exp` and the density read as real functions,
`Fprime(sigma)` equals `exp(x/2) * pdf(x/sigma + sigma/2)` and is strictly positive, and `F` is
strictly increasing on `sigma > 0`. -/
theorem Fprime_positive (x sigma : ℝ) (h : sigma ≠ 0) :
    ImpliedVol.Fprime (Dbl.fin 1) (Dbl.fin x) ⟨Dbl.fin 0, Dbl.fin 1⟩ (Dbl.fin sigma)
        = Dbl.exp (Dbl.fin x / Dbl.fin 2)
          * NormalDistribution.pdf ⟨Dbl.fin 0, Dbl.fin 1⟩
              (Dbl.fin x / Dbl.fin sigma + Dbl.fin sigma / Dbl.fin 2)
    ∧ Dbl.fin 0 < ImpliedVol.Fprime (Dbl.fin 1) (Dbl.fin x) ⟨Dbl.fin 0, Dbl.fin 1⟩
        (Dbl.fin sigma)
    ∧ StrictMonoOn (fun s : ℝ =>
          (ImpliedVol.F (Dbl.fin 1) (Dbl.fin x) ⟨Dbl.fin 0, Dbl.fin 1⟩ (Dbl.fin s)).toReal)
        (Set.Ioi 0) := by
  obtain ⟨-, hFp, hpdf, -, -, hmono⟩ := F_facts x
  have hF := hFp sigma h
  obtain ⟨radd, -, rmul, -, rdiv, rdiv2, -, rexp, -, -, -, -, -, -, rlt⟩ := Dbl.fin_rules
  have hpos : 0 < Real.exp (x / 2) * phi (x / sigma + sigma / 2) :=
    mul_pos (Real.exp_pos _) (phi_facts.2 _)
  refine ⟨?_, ?_, hmono⟩
  · rw [hF, rdiv2, rdiv _ _ h, rdiv2, radd, rexp, hpdf, rmul]
  · rw [hF]
    exact (rlt _ _).mpr hpos

/-- Witness of C20 (amended) at `x = 1`, `sigma = 2`. -/
theorem Fprime_positive_witness :
    Dbl.fin 0 < ImpliedVol.Fprime (Dbl.fin 1) (Dbl.fin 1) ⟨Dbl.fin 0, Dbl.fin 1⟩ (Dbl.fin 2) :=
  (Fprime_positive 1 2 (by norm_num)).2.1

/-- C21 fails as stated on the program: with the saturation of `erf` kept,
`BSCall(100, 0, 50, 0.25, 2, 0)` is exactly `50 = spot - exp(-(rate/100)*expiry)*strike` (both
values of `cdf` are `1`, the arguments of `erf` being above `6`), which is not above
`max(spot - exp(-(rate/100)*expiry)*strike, 0)`, and `implied_vol` throws `invalid_argument` on
this price, whatever the iteration budget.  (The guard of `implied_vol` calls `exp` at `0` only,
where the result is `1` in both readings of `exp`.) -/
theorem call_price_on_the_bound :
    Ranged.BSCall (Dbl.fin 100) (Dbl.fin 0) (Dbl.fin 50) (Dbl.fin 0.25) (Dbl.fin 2) (Dbl.fin 0) = Dbl.fin 50
      ∧ ¬ (max (100 - Real.exp (-(0 / 100) * 0.25) * 50) 0 < (50 : ℝ))
      ∧ ∀ fuel : ℕ,
        implied_vol fuel
            (Ranged.BSCall (Dbl.fin 100) (Dbl.fin 0) (Dbl.fin 50) (Dbl.fin 0.25) (Dbl.fin 2) (Dbl.fin 0))
            (Dbl.fin 100) (Dbl.fin 50) (Dbl.fin 0.25) (Dbl.fin 0)
          = Outcome.invalid_argument := by
  obtain ⟨radd, rsub, rmul, rneg, rdiv, rdiv2, rdiv100, -, rlog, rsqrt, -, rpow, -, -, -⟩ :=
    Dbl.fin_rules
  have hsat : ∀ r : ℝ, 6 ≤ r → Ranged.erf (Dbl.fin r) = Dbl.fin 1 := by
    intro r h
    show (if 6 ≤ r then Dbl.fin 1 else _) = _
    rw [if_pos h]
  have hcdf : ∀ t : ℝ, 12 ≤ t → Ranged.cdf ⟨Dbl.fin 0, Dbl.fin 1⟩ (Dbl.fin t) = Dbl.fin 1 := by
    intro t ht
    have h2 : (0 : ℝ) < Real.sqrt 2 := Real.sqrt_pos.mpr two_pos
    have h3 : Real.sqrt 2 ≤ 2 := by
      rw [Real.sqrt_le_left (by norm_num : (0 : ℝ) ≤ 2)]
      norm_num
    have h4 : (6 : ℝ) ≤ (t - 0) / (1 * Real.sqrt 2) := by
      rw [le_div_iff₀ (by positivity)]
      nlinarith
    delta Ranged.cdf
    dsimp only
    rw [rsub, rsqrt _ (by norm_num), rmul, rdiv _ _ (by positivity), hsat _ h4, radd, rmul]
    norm_num
  have hlog : (1 / 2 : ℝ) ≤ Real.log (100 / 50) := by
    have h := Real.one_sub_inv_le_log_of_pos (by norm_num : (0 : ℝ) < 100 / 50)
    norm_num at h ⊢
    exact h
  have hw : (0 : ℝ) < Real.sqrt (0.25 - 0) := Real.sqrt_pos.mpr (by norm_num)
  have hw1 : Real.sqrt (0.25 - 0) ≤ 1 := by
    rw [Real.sqrt_le_left (by norm_num : (0 : ℝ) ≤ 1)]
    norm_num
  have hd : ∀ c : ℝ, -(1 / 100) ≤ c →
      (12 : ℝ) ≤ (Real.log (100 / 50) + c) / (2 / 100) / Real.sqrt (0.25 - 0) := by
    intro c hc
    rw [le_div_iff₀ hw, le_div_iff₀ (by norm_num)]
    nlinarith
  have hexp : Ranged.exp (Dbl.fin 0) = Dbl.fin 1 := by
    show (if (710 : ℝ) < 0 then Dbl.pinf else if (0 : ℝ) < -746 then Dbl.fin 0
      else Dbl.fin (Real.exp 0)) = _
    rw [if_neg (by norm_num), if_neg (by norm_num), Real.exp_zero]
  have hval : Ranged.BSCall (Dbl.fin 100) (Dbl.fin 0) (Dbl.fin 50) (Dbl.fin 0.25) (Dbl.fin 2) (Dbl.fin 0) = Dbl.fin 50 := by
    delta Ranged.BSCall
    dsimp only
    simp only [rdiv100, rsub, rneg, rmul, rpow, rdiv2, radd,
      rdiv _ _ (by norm_num : (50 : ℝ) ≠ 0), rlog _ (by norm_num : (0 : ℝ) < 100 / 50),
      rdiv _ _ (by norm_num : (2 / 100 : ℝ) ≠ 0), rsqrt _ (by norm_num : (0 : ℝ) ≤ 0.25 - 0),
      rdiv _ _ hw.ne.symm]
    rw [hcdf _ (hd _ (by norm_num)), hcdf _ (hd _ (by norm_num))]
    have e : -(0 / 100 : ℝ) * (0.25 - 0) = 0 := by norm_num
    rw [e, hexp]
    simp only [rmul, rsub]
    norm_num
  rw [hval]
  refine ⟨rfl, ?_, fun fuel => ?_⟩
  · norm_num
  · apply (implied_vol_guard.2 fuel 50 100 50 0.25 0).mpr
    left
    norm_num

/-- C21 (amended): in exact arithmetic a Black-Scholes call value lies strictly inside the
bounds of the solver's validation.  For spot > 0, strike > 0, expiry > 0, vol > 0 and every
rate, with `erf`, `exp`, `log` and `sqrt` read as real functions,
`BSCall(spot, 0, strike, expiry, vol, rate)` is a finite value `price` with
`max(spot - exp(-(rate/100)*expiry)*strike, 0) < price < spot`. -/
theorem call_price_passes_validation (spot strike expiry vol rate : ℝ)
    (hs : 0 < spot) (hk : 0 < strike) (hT : 0 < expiry) (hv : 0 < vol) :
    ∃ price : ℝ,
      BSCall (Dbl.fin spot) (Dbl.fin 0) (Dbl.fin strike) (Dbl.fin expiry) (Dbl.fin vol)
          (Dbl.fin rate) = Dbl.fin price
      ∧ max (spot - Real.exp (-(rate / 100) * expiry) * strike) 0 < price
      ∧ price < spot := by
  obtain ⟨phi_eq, phi_pos⟩ := phi_facts
  obtain ⟨hD, hneg, -, -, -⟩ := Phi_facts
  obtain ⟨-, hpos, hlt1, hlim⟩ := Phi_bounds
  obtain ⟨key, -⟩ := d1R_facts rate hs hk hT hv
  have hB := (BS_fin rate hs hk hT hv).1
  -- if `a φ(u) = b φ(w)` with `w < u` then `a Φ(u) - b Φ(w) > a - b`: the function
  -- `y ↦ a Φ(y) - b Φ(y - (u - w))` decreases on `[u, ∞)` to its limit `a - b`
  have hM : ∀ a b u w : ℝ, w < u → a * phi u = b * phi w → 0 < a →
      a - b < a * Phi u - b * Phi w := by
    intro a b u w hwu hab ha
    have hδ : 0 < u - w := sub_pos.mpr hwu
    have hH : ∀ t : ℝ, HasDerivAt (fun y : ℝ => a * Phi y - b * Phi (y - (u - w)))
        (a * phi t - b * phi (t - (u - w))) t := by
      intro t
      have h1 := (hD t).const_mul a
      have h2 := ((hD (t - (u - w))).comp t ((hasDerivAt_id t).sub_const (u - w))).const_mul b
      have h3 := h1.sub h2
      convert h3 using 1
      rw [mul_one]
    have hlt0 : ∀ t : ℝ, u < t → a * phi t - b * phi (t - (u - w)) < 0 := by
      intro t ht
      have e1 : phi t = phi u * Real.exp ((u ^ 2 - t ^ 2) / 2) := by
        rw [phi_eq, phi_eq, div_mul_eq_mul_div, ← Real.exp_add]
        congr 2
        ring
      have e2 : phi (t - (u - w)) = phi w * Real.exp ((w ^ 2 - (t - (u - w)) ^ 2) / 2) := by
        rw [phi_eq, phi_eq, div_mul_eq_mul_div, ← Real.exp_add]
        congr 2
        ring
      have hm : 0 < a * phi u := mul_pos ha (phi_pos u)
      have hlt : Real.exp ((u ^ 2 - t ^ 2) / 2)
          < Real.exp ((w ^ 2 - (t - (u - w)) ^ 2) / 2) := by
        apply Real.exp_lt_exp.mpr
        nlinarith [mul_pos hδ (sub_pos.mpr ht)]
      have h5 := mul_lt_mul_of_pos_left hlt hm
      rw [e1, e2, ← mul_assoc, ← mul_assoc, ← hab]
      linarith
    have hanti : StrictAntiOn (fun y : ℝ => a * Phi y - b * Phi (y - (u - w))) (Set.Ici u) := by
      apply strictAntiOn_of_deriv_neg (convex_Ici u)
      · intro t _
        exact (hH t).continuousAt.continuousWithinAt
      · intro t ht
        rw [interior_Ici] at ht
        rw [(hH t).deriv]
        exact hlt0 t ht
    have hl : Filter.Tendsto (fun y : ℝ => a * Phi y - b * Phi (y - (u - w))) Filter.atTop
        (nhds (a * 1 - b * 1)) := by
      have h1 := hlim.const_mul a
      have h2 := (hlim.comp (Filter.tendsto_atTop_add_const_right Filter.atTop (-(u - w))
        Filter.tendsto_id)).const_mul b
      refine (h1.sub h2).congr (fun y => ?_)
      simp only [Function.comp_apply, id_eq, sub_eq_add_neg]
    have h1 : a * 1 - b * 1 ≤ a * Phi (u + 1) - b * Phi (u + 1 - (u - w)) :=
      le_of_tendsto hl (Filter.eventually_atTop.mpr ⟨u + 1, fun t ht =>
        hanti.antitoneOn (Set.mem_Ici.mpr (by linarith)) (Set.mem_Ici.mpr (by linarith)) ht⟩)
    have h2 : a * Phi (u + 1) - b * Phi (u + 1 - (u - w)) < a * Phi u - b * Phi (u - (u - w)) :=
      hanti (Set.mem_Ici.mpr le_rfl) (Set.mem_Ici.mpr (by linarith)) (by linarith)
    rw [sub_sub_cancel] at h2
    linarith
  have hev : ∀ y : ℝ, phi (-y) = phi y := fun y => by rw [phi_eq, phi_eq, neg_sq]
  have hd : d2R spot 0 strike expiry vol rate < d1R spot 0 strike expiry vol rate := by
    have hτ : 0 < expiry - 0 := by linarith
    have hw : 0 < Real.sqrt (expiry - 0) := Real.sqrt_pos.mpr hτ
    have hσ : 0 < vol / 100 := by positivity
    have hc := mul_pos (by positivity : 0 < (vol / 100) ^ 2 / 2) hτ
    delta d1R d2R
    apply div_lt_div_of_pos_right _ hw
    apply div_lt_div_of_pos_right _ hσ
    linarith
  have hBpos : 0 < strike * Real.exp (-(rate / 100) * (expiry - 0)) :=
    mul_pos hk (Real.exp_pos _)
  have i1 := hM _ _ _ _ hd key hs
  have i2 := hM _ _ _ _ (neg_lt_neg hd) ((hev _).symm ▸ (hev (d1R spot 0 strike expiry vol rate)).symm ▸ key.symm) hBpos
  rw [hneg, hneg] at i2
  have h3 := mul_lt_mul_of_pos_left (hlt1 (d1R spot 0 strike expiry vol rate)) hs
  have h4 := mul_pos hBpos (hpos (d2R spot 0 strike expiry vol rate))
  rw [sub_zero] at i1 i2 h4 hB
  have hlo : max (spot - Real.exp (-(rate / 100) * expiry) * strike) 0
      < spot * Phi (d1R spot 0 strike expiry vol rate)
        - strike * Real.exp (-(rate / 100) * expiry)
          * Phi (d2R spot 0 strike expiry vol rate) := by
    apply max_lt <;> linarith
  have hhi : spot * Phi (d1R spot 0 strike expiry vol rate)
        - strike * Real.exp (-(rate / 100) * expiry)
          * Phi (d2R spot 0 strike expiry vol rate) < spot := by
    linarith
  exact ⟨_, hB, hlo, hhi⟩

/-- Witness of C21 (amended) at spot = 100, strike = 100, expiry = 1, vol = 20, rate = 5. -/
theorem call_price_passes_validation_witness :
    ∃ price : ℝ,
      BSCall (Dbl.fin 100) (Dbl.fin 0) (Dbl.fin 100) (Dbl.fin 1) (Dbl.fin 20) (Dbl.fin 5)
          = Dbl.fin price
      ∧ max (100 - Real.exp (-(5 / 100) * 1) * 100) 0 < price
      ∧ price < 100 :=
  call_price_passes_validation 100 100 1 20 5 (by norm_num) (by norm_num) (by norm_num)
    (by norm_num)

end
